import Mathlib

set_option maxRecDepth 100000

/-!
Verification of the WOTS+ (Winternitz one-time signature, RFC 8391 variant)
implementation in this repository, against its natural-language specification.

The development shallowly embeds the Go sources:
  * `wots.go` (the `Opts`-based revision: `GenPublicKey`, `Sign`,
    `PublicKeyFromSig`, `Verify`),
  * `hasher.go` (`baseW`, `checksum`, `chain`, `expandSeed`, `computeChains`),
  * `params.go` together with the `Mode.params` resolution,
  * `opts.go` (`Opts.hash`, `Opts.routines`),
  * `address.go` (`AddressFromBytes`, `Address.ToBytes`).

Bytes are modelled as `Nat` values (with explicit `% 256` or masking whenever
the Go code truncates), byte strings as `List Nat`, and the 256-bit hash
primitive as an explicit function parameter `H : List Nat → List Nat`; the
hash-engine precomputation of `hasher.go` is observationally the plain
pad-then-absorb hash, which is what the embedding uses.  Goroutine scheduling
is sequentialised: workers are executed in index order, which is
output-equivalent because the workers write disjoint slices of the output
buffer; the independence of the result from the number of workers is itself
one of the proved theorems.
-/

namespace Wotsp

/-- Big-endian two-byte encoding of `uint16 v`, as written by
`binary.BigEndian.PutUint16`. -/
def be16 (v : Nat) : List Nat := [v / 256 % 256, v % 256]

/-- Big-endian four-byte encoding of `uint32 v`, as written by
`binary.BigEndian.PutUint32`. -/
def be32 (v : Nat) : List Nat :=
  [v / 2 ^ 24 % 256, v / 2 ^ 16 % 256, v / 2 ^ 8 % 256, v % 256]

/-- Overwrites the four-byte window `[off, off+4)` of buffer `a` with the
big-endian encoding of `v`; this is `binary.BigEndian.PutUint32(a[off:], v)`. -/
def putU32 (a : List Nat) (off v : Nat) : List Nat :=
  a.take off ++ be32 v ++ a.drop (off + 4)

/-- The `setChain` helper of `hasher.go`: writes the chain-index field
(bytes `[20, 24)`) of an address. -/
def setChainA (a : List Nat) (c : Nat) : List Nat := putU32 a 20 c

/-- The `setHash` helper of `hasher.go`: writes the hash-index field
(bytes `[24, 28)`) of an address. -/
def setHashA (a : List Nat) (h : Nat) : List Nat := putU32 a 24 h

/-- The `setKeyAndMask` helper of `hasher.go`: writes the key-or-mask selector
(bytes `[28, 32)`) of an address. -/
def setKeyAndMaskA (a : List Nat) (km : Nat) : List Nat := putU32 a 28 km

/-- The 32-byte PRF padding: 30 zero bytes followed by the 16-bit value 3
big-endian, as prepared in `newHasher` (`binary.BigEndian.PutUint16` on a
zero buffer). -/
def pad3 : List Nat := List.replicate 30 0 ++ [0, 3]

/-- The 32-byte all-zero padding absorbed for the keyed hash `F`. -/
def pad0 : List Nat := List.replicate 32 0

/-- `prfPubSeed` of `hasher.go`: resets to the digest of `pad3 ‖ pubSeed` and
absorbs the 32 address bytes, i.e. computes `H(pad3 ‖ pubSeed ‖ addr)`. -/
def prfPub (H : List Nat → List Nat) (pubSeed addr : List Nat) : List Nat :=
  H (pad3 ++ pubSeed ++ addr)

/-- `prfPrivSeed` of `hasher.go`: computes `H(pad3 ‖ privSeed ‖ ctr)`. -/
def prfPriv (H : List Nat → List Nat) (privSeed ctr : List Nat) : List Nat :=
  H (pad3 ++ privSeed ++ ctr)

/-- `hashF` of `hasher.go`: computes `H(pad0 ‖ key ‖ msg)`. -/
def hashFH (H : List Nat → List Nat) (key msg : List Nat) : List Nat :=
  H (pad0 ++ key ++ msg)

/-- Semantics of Go `copy(out, in)` into a fresh `n`-byte zero buffer:
the first `min n (length x)` bytes of `x`, padded with zeros up to `n`. -/
def copyN (n : Nat) (x : List Nat) : List Nat :=
  x.take n ++ List.replicate (n - x.length) 0

/-- Byte-wise xor of two buffers (`out[j] = out[j] ^ mask[j]`). -/
def xorBytes (x y : List Nat) : List Nat := List.zipWith (fun a b => a ^^^ b) x y

/-- Subtraction of `uint8` values: `(a - b) mod 256` for byte values
`a, b < 256`. -/
def sub8 (a b : Nat) : Nat := (a + 256 - b) % 256

/-- The `params` record of `params.go`: Winternitz parameter `w`, its base-two
logarithm, and the chain counts `l1`, `l2`, `l`. -/
structure Params where
  w : Nat
  logW : Nat
  l1 : Nat
  l2 : Nat
  l : Nat
deriving DecidableEq, Repr

/-- Parameter set of mode `W4` as assigned in `Mode.params`. -/
def paramsW4 : Params := ⟨4, 2, 128, 5, 133⟩

/-- Parameter set of mode `W16` as assigned in `Mode.params`. -/
def paramsW16 : Params := ⟨16, 4, 64, 3, 67⟩

/-- Parameter set of mode `W256` as assigned in `Mode.params`. -/
def paramsW256 : Params := ⟨256, 8, 32, 2, 34⟩

/-- `Mode.params`: `Mode` is a Go `int` with `W16 = 0`, `W4 = 1`, `W256 = 2`;
every other value yields an error (modelled as `none`; the Go error carries
only a message string). -/
def modeParams : Int → Option Params
  | 1 => some paramsW4
  | 0 => some paramsW16
  | 2 => some paramsW256
  | _ => none

/-- One iteration of the `for` loop in the `chain` kernel of `hasher.go`,
acting on the pair (out buffer, address): set the hash index to `i`, derive
key and bitmask with selector 0 resp. 1, xor the mask into the buffer and
apply the keyed hash `F`.  The address mutations persist, so the iteration
returns the mutated address. -/
def chainStep (H : List Nat → List Nat) (pubSeed : List Nat)
    (st : List Nat × List Nat) (i : Nat) : List Nat × List Nat :=
  let a1 := setHashA st.2 i
  let a2 := setKeyAndMaskA a1 0
  let key := prfPub H pubSeed a2
  let a3 := setKeyAndMaskA a2 1
  let mask := prfPub H pubSeed a3
  (hashFH H key (xorBytes st.1 mask), a3)

/-- The `chain` kernel of `hasher.go`: copy the input into the `N`-byte output
slice, then iterate `chainStep` for `i` from `start` while `i < start+steps`
in `uint8` arithmetic, i.e. `(start+steps) % 256 - start` times.  Returns the
final output buffer together with the mutated address. -/
def chainGo (H : List Nat → List Nat) (pubSeed : List Nat) (x : List Nat)
    (start steps : Nat) (a : List Nat) : List Nat × List Nat :=
  (List.range' start ((start + steps) % 256 - start)).foldl
    (chainStep H pubSeed) (copyN 32 x, a)

/-- One chain iteration as a pure function of the first 24 address bytes
`pre24` (layer, tree, type, OTS and chain fields) and the step index `i`:
the clean counterpart of `chainStep`, used to characterise it. -/
def pureStep (H : List Nat → List Nat) (pubSeed pre24 : List Nat)
    (out : List Nat) (i : Nat) : List Nat :=
  hashFH H (prfPub H pubSeed (pre24 ++ be32 i ++ be32 0))
    (xorBytes out (prfPub H pubSeed (pre24 ++ be32 i ++ be32 1)))

/-- Clean form of the chain kernel: fold `pureStep` over the index interval
`[start, start+cnt)`. -/
def chainPure (H : List Nat → List Nat) (pubSeed pre24 : List Nat)
    (x : List Nat) (start cnt : Nat) : List Nat :=
  (List.range' start cnt).foldl (pureStep H pubSeed pre24) (copyN 32 x)

/-- The loop body of `baseW` in `hasher.go`, with the mutable state
(`total`, `in`, `bits`) passed explicitly and the remaining output count as
the recursion measure.  `wm` is the byte mask `byte(w-1)`. -/
def baseWAux (logW wm : Nat) (x : List Nat) :
    Nat → Nat → Nat → Nat → List Nat
  | _total, _inIdx, _bits, 0 => []
  | _total, inIdx, 0, consumed + 1 =>
    ((x.getD inIdx 0 >>> (8 - logW)) &&& wm) ::
      baseWAux logW wm x (x.getD inIdx 0) (inIdx + 1) (8 - logW) consumed
  | total, inIdx, bits + 1, consumed + 1 =>
    ((total >>> (bits + 1 - logW)) &&& wm) ::
      baseWAux logW wm x total inIdx (bits + 1 - logW) consumed

/-- `baseW` of `hasher.go`: the base-`w` decomposition of the byte string `x`
into `outLen` digits, packed MSB-first. -/
def baseW (p : Params) (x : List Nat) (outLen : Nat) : List Nat :=
  baseWAux p.logW ((p.w - 1) % 256) x 0 0 0 outLen

/-- The `uint32` checksum accumulator of `checksum` in `hasher.go`:
`csum += uint32(uint8(w-1) - msg[i])` for `i < l1`, in `uint32` arithmetic. -/
def checksumAcc (p : Params) (msg : List Nat) : Nat :=
  (List.range p.l1).foldl
    (fun c i => (c + sub8 ((p.w - 1) % 256) (msg.getD i 0)) % 2 ^ 32) 0

/-- The shifted checksum value of `checksum` in `hasher.go`, before the
truncation to `uint16`: `csum <<= 8 - ((l2*logW) % 8)` in `uint32`
arithmetic. -/
def checksumShifted (p : Params) (msg : List Nat) : Nat :=
  checksumAcc p msg <<< (8 - p.l2 * p.logW % 8) % 2 ^ 32

/-- `checksum` of `hasher.go`: shift the accumulated checksum, truncate it to
`uint16`, serialise those two bytes big-endian and return their base-`w`
decomposition of length `l2`. -/
def checksum (p : Params) (msg : List Nat) : List Nat :=
  baseW p (be16 (checksumShifted p msg % 2 ^ 16)) p.l2

/-- `expandSeed` of `hasher.go`: block `i` of the private key is
`PRF(privSeed, ctr)` where `ctr` is 30 zero bytes followed by the 16-bit
big-endian counter `i`. -/
def expandSeed (H : List Nat → List Nat) (seed : List Nat) (p : Params) :
    List Nat :=
  ((List.range p.l).map
    (fun i => prfPriv H seed (List.replicate 30 0 ++ be16 i))).flatten

/-- The message-plus-checksum chain lengths computed in `Sign` and
`PublicKeyFromSig`: `lengths := baseW(msg, l1) ‖ checksum(lengths)`. -/
def msgLengths (p : Params) (msg : List Nat) : List Nat :=
  baseW p msg p.l1 ++ checksum p (baseW p msg p.l1)

/-- Overwrites `buf[off : off + length v]` with `v`. -/
def writeSlice (buf : List Nat) (off : Nat) (v : List Nat) : List Nat :=
  buf.take off ++ v ++ buf.drop (off + v.length)

/-- The per-chain body of `computeChain` in `computeChains`
(`hasher.go`): set the chain field of the worker's address to `j`, run the
chain kernel on the `j`-th 32-byte input slice with the (start, steps) pair
selected by `fromSig`, and write the result into the `j`-th output slice.
The worker's address is threaded through. -/
def processChain (H : List Nat → List Nat) (pubSeed : List Nat) (p : Params)
    (fromSig : Bool) (inp lengths : List Nat)
    (st : List Nat × List Nat) (j : Nat) : List Nat × List Nat :=
  let a1 := setChainA st.2 j
  let lj := lengths.getD j 0
  let start := if fromSig then lj else 0
  let steps := if fromSig then sub8 ((p.w - 1) % 256) lj else lj
  let r := chainGo H pubSeed ((inp.drop (j * 32)).take 32) start steps a1
  (writeSlice st.1 (j * 32) r.1, r.2)

/-- `chainsPerRoutine` of `computeChains`: `(l-1)/numRoutines + 1`. -/
def chainsPer (p : Params) (nr : Nat) : Nat := (p.l - 1) / nr + 1

/-- Chain indices owned by worker `k`: `firstChain = k*cpr` up to and
including `lastChain = min (firstChain+cpr-1) (l-1)`. -/
def workerChains (p : Params) (c k : Nat) : List Nat :=
  List.range' (k * c) (min p.l (k * c + c) - k * c)

/-- `computeChains` of `hasher.go`, together with the caller-visible value of
`*adrs` after the call.  The output buffer starts as `l*N` zero bytes; each
worker receives a by-value copy of the caller's address at launch and threads
it privately through its chains.  The goroutines are sequentialised in worker
order, which is sound because the workers write disjoint output slices.  The
caller's address is only ever read (at the `go` launches), never written, so
its final value is the initial one. -/
def computeChainsFull (H : List Nat → List Nat) (pubSeed : List Nat)
    (nr : Nat) (inp lengths a : List Nat) (p : Params) (fromSig : Bool) :
    List Nat × List Nat :=
  ((List.range nr).foldl
    (fun buf k =>
      ((workerChains p (chainsPer p nr) k).foldl
        (processChain H pubSeed p fromSig inp lengths) (buf, a)).1)
    (List.replicate (p.l * 32) 0), a)

/-- The output buffer produced by `computeChains`. -/
def computeChains (H : List Nat → List Nat) (pubSeed : List Nat) (nr : Nat)
    (inp lengths a : List Nat) (p : Params) (fromSig : Bool) : List Nat :=
  (computeChainsFull H pubSeed nr inp lengths a p fromSig).1

/-- `GenPublicKey` of `wots.go`, over resolved parameters and worker count:
expand the seed, take all chain lengths to be `uint8(w-1)`, and run full
chains forwards. -/
def GenPublicKeyP (H : List Nat → List Nat) (nr : Nat)
    (seed pubSeed : List Nat) (p : Params) (a : List Nat) : List Nat :=
  computeChains H pubSeed nr (expandSeed H seed p)
    (List.replicate p.l ((p.w - 1) % 256)) a p false

/-- `Sign` of `wots.go`, over resolved parameters and worker count. -/
def SignP (H : List Nat → List Nat) (nr : Nat)
    (msg seed pubSeed : List Nat) (p : Params) (a : List Nat) : List Nat :=
  computeChains H pubSeed nr (expandSeed H seed p) (msgLengths p msg) a p false

/-- `PublicKeyFromSig` of `wots.go`, over resolved parameters and worker
count: complete the signature chains, using the lengths as start indices. -/
def PublicKeyFromSigP (H : List Nat → List Nat) (nr : Nat)
    (sig msg pubSeed : List Nat) (p : Params) (a : List Nat) : List Nat :=
  computeChains H pubSeed nr sig (msgLengths p msg) a p true

/-- `subtle.ConstantTimeCompare`: 0 when the lengths differ, otherwise 1
exactly when the accumulated or of the byte-wise xors is zero. -/
def ctCompare (x y : List Nat) : Nat :=
  if x.length = y.length then
    if (xorBytes x y).foldl (fun acc b => acc ||| b) 0 = 0 then 1 else 0
  else 0

/-- `Verify` of `wots.go`: recompute the public key from the signature and
compare in constant time. -/
def VerifyP (H : List Nat → List Nat) (nr : Nat)
    (pk sig msg pubSeed : List Nat) (p : Params) (a : List Nat) : Bool :=
  ctCompare pk (PublicKeyFromSigP H nr sig msg pubSeed p a) == 1

/-- The `Opts` record of `opts.go`: mode, address, concurrency and the
embedded `crypto.Hash` value (a Go integer). -/
structure Opts where
  mode : Int
  address : List Nat
  concurrency : Int
  hashAlg : Nat
deriving DecidableEq, Repr

/-- `Opts.routines` of `opts.go`.  `cpu` stands for
`min(runtime.GOMAXPROCS(-1), runtime.NumCPU())`, the machine-dependent value
used when `Concurrency < 0`. -/
def routines (cpu : Nat) (c : Int) : Nat :=
  if c = 0 then 1 else if 0 < c then c.toNat else cpu

/-- `Opts.hash` of `opts.go`.  The numeric values are the `crypto.Hash`
constants of the Go standard library: `SHA256 = 5`, `SHA512_256 = 15`,
`BLAKE2s_256 = 16`, `BLAKE2b_256 = 17`; these four are the keys of the
`canPrecompute` map.  The zero value defaults to SHA-256; anything else is an
error (modelled as `none`). -/
def optsHash (h : Nat) : Option Nat :=
  if h = 0 then some 5
  else if h = 5 ∨ h = 15 ∨ h = 16 ∨ h = 17 then some h
  else none

/-- `GenPublicKey` of `wots.go` at the `Opts` level: resolve the mode into
parameters (an error for an invalid mode, following `Mode.params`) and the
concurrency into a worker count, then run the parameterised primitive. -/
def GenPublicKeyO (H : List Nat → List Nat) (cpu : Nat)
    (seed pubSeed : List Nat) (o : Opts) : Option (List Nat) :=
  (modeParams o.mode).map
    (fun p => GenPublicKeyP H (routines cpu o.concurrency) seed pubSeed p o.address)

/-- `Sign` of `wots.go` at the `Opts` level. -/
def SignO (H : List Nat → List Nat) (cpu : Nat)
    (msg seed pubSeed : List Nat) (o : Opts) : Option (List Nat) :=
  (modeParams o.mode).map
    (fun p => SignP H (routines cpu o.concurrency) msg seed pubSeed p o.address)

/-- `PublicKeyFromSig` of `wots.go` at the `Opts` level. -/
def PublicKeyFromSigO (H : List Nat → List Nat) (cpu : Nat)
    (sig msg pubSeed : List Nat) (o : Opts) : Option (List Nat) :=
  (modeParams o.mode).map
    (fun p =>
      PublicKeyFromSigP H (routines cpu o.concurrency) sig msg pubSeed p o.address)

/-- `Verify` of `wots.go` at the `Opts` level: recompute the public key via
`PublicKeyFromSig` and compare with `subtle.ConstantTimeCompare`. -/
def VerifyO (H : List Nat → List Nat) (cpu : Nat)
    (pk sig msg pubSeed : List Nat) (o : Opts) : Option Bool :=
  (PublicKeyFromSigO H cpu sig msg pubSeed o).map (fun pk2 => ctCompare pk pk2 == 1)

/-- `Address.ToBytes` of `address.go`: the 32-byte buffer itself. -/
def addressToBytes (a : List Nat) : List Nat := a

/-- `AddressFromBytes` of `address.go`: requires exactly 32 bytes, otherwise
returns the error `"raw address must have length 32"`; on success copies the
bytes into the fresh (zero) address buffer. -/
def addressFromBytes (data : List Nat) : Except String (List Nat) :=
  if data.length = 32 then Except.ok (copyN 32 data)
  else Except.error "raw address must have length 32"

/-- Truthiness of an `Except` result. -/
def exceptIsOk {ε α : Type} : Except ε α → Bool
  | Except.ok _ => true
  | Except.error _ => false

/-- The error taxonomy of the specification (§7). -/
inductive WotsError where
  | invalidMode
  | unsupportedHash
  | invalidInputLength
deriving DecidableEq, Repr

/-- Modelled from the spec: the canonical error-returning `GenPublicKey`
(the latest revision of `wots.go` is not among the sources; only its tests
are).  Per §4.7 and §7, an invalid mode, an unsupported hash, or a
wrong-length seed or public seed surface as typed errors; on valid inputs the
primitive runs to completion with no error. -/
def GenPublicKeyE (H : List Nat → List Nat) (cpu : Nat)
    (seed pubSeed : List Nat) (o : Opts) : Except WotsError (List Nat) :=
  match modeParams o.mode with
  | none => Except.error WotsError.invalidMode
  | some p =>
    match optsHash o.hashAlg with
    | none => Except.error WotsError.unsupportedHash
    | some _ =>
      if seed.length = 32 ∧ pubSeed.length = 32 then
        Except.ok (GenPublicKeyP H (routines cpu o.concurrency) seed pubSeed p o.address)
      else Except.error WotsError.invalidInputLength

/-- Modelled from the spec: the canonical error-returning `Sign` (missing
from the sources, see `GenPublicKeyE`); additionally requires
`len(msg) = N`. -/
def SignE (H : List Nat → List Nat) (cpu : Nat)
    (msg seed pubSeed : List Nat) (o : Opts) : Except WotsError (List Nat) :=
  match modeParams o.mode with
  | none => Except.error WotsError.invalidMode
  | some p =>
    match optsHash o.hashAlg with
    | none => Except.error WotsError.unsupportedHash
    | some _ =>
      if msg.length = 32 ∧ seed.length = 32 ∧ pubSeed.length = 32 then
        Except.ok (SignP H (routines cpu o.concurrency) msg seed pubSeed p o.address)
      else Except.error WotsError.invalidInputLength

/-- Modelled from the spec: the canonical error-returning `PublicKeyFromSig`
(missing from the sources, see `GenPublicKeyE`); requires a signature of
`l·N` bytes and a 32-byte message and public seed. -/
def PublicKeyFromSigE (H : List Nat → List Nat) (cpu : Nat)
    (sig msg pubSeed : List Nat) (o : Opts) : Except WotsError (List Nat) :=
  match modeParams o.mode with
  | none => Except.error WotsError.invalidMode
  | some p =>
    match optsHash o.hashAlg with
    | none => Except.error WotsError.unsupportedHash
    | some _ =>
      if sig.length = p.l * 32 ∧ msg.length = 32 ∧ pubSeed.length = 32 then
        Except.ok
          (PublicKeyFromSigP H (routines cpu o.concurrency) sig msg pubSeed p o.address)
      else Except.error WotsError.invalidInputLength

/-- Modelled from the spec: the canonical error-returning `Verify` (missing
from the sources, see `GenPublicKeyE`).  Per §7 it returns a boolean for
success versus mismatch and an error only for structural problems: invalid
mode, unsupported hash, or wrong-length `pk`, `sig` or `msg`. -/
def VerifyE (H : List Nat → List Nat) (cpu : Nat)
    (pk sig msg pubSeed : List Nat) (o : Opts) : Except WotsError Bool :=
  match modeParams o.mode with
  | none => Except.error WotsError.invalidMode
  | some p =>
    match optsHash o.hashAlg with
    | none => Except.error WotsError.unsupportedHash
    | some _ =>
      if pk.length = p.l * 32 ∧ sig.length = p.l * 32 ∧ msg.length = 32 ∧
          pubSeed.length = 32 then
        Except.ok (VerifyP H (routines cpu o.concurrency) pk sig msg pubSeed p o.address)
      else Except.error WotsError.invalidInputLength

/-- Minimal byte length of the shifted checksum value, floored at two bytes
(the checksum byte count of all three supported modes). -/
def byteLen2 (s : Nat) : Nat :=
  if s < 2 ^ 16 then 2 else if s < 2 ^ 24 then 3 else 4

/-- The checksum as described by the specification (§4.4): the exact sum
`C = Σ_{i<l1} (w − 1 − msg[i])`, left-shifted so that the low
`8 − (l2·logW mod 8)` bits are zero, of which the HIGH two bytes
(`⌈l2·logW/8⌉ = 2` for every supported mode) are emitted and decomposed in
base `w` into `l2` digits. -/
def checksumSpec (p : Params) (msg : List Nat) : List Nat :=
  let c := (List.range p.l1).foldl (fun c i => c + (p.w - 1 - msg.getD i 0)) 0
  let s := c <<< (8 - p.l2 * p.logW % 8)
  baseW p (be16 (s >>> (8 * (byteLen2 s - 2)))) p.l2

/-- MSB-first packing of one group of `8/logW` base-`w` digits into a byte. -/
def packByte (w : Nat) (chunk : List Nat) : Nat :=
  chunk.foldl (fun acc d => acc * w + d) 0

/-- MSB-first reassembly of base-`w` digits into bytes (the inverse direction
of `baseW`, used to state the base-w round-trip property P5). -/
def bytesFromDigits (logW : Nat) (ds : List Nat) : List Nat :=
  (List.range (ds.length * logW / 8)).map
    (fun i => packByte (2 ^ logW) ((ds.drop (i * (8 / logW))).take (8 / logW)))

/-! ### Address-window lemmas -/

theorem be32_length (v : Nat) : (be32 v).length = 4 := rfl

theorem copyN_length (n : Nat) (x : List Nat) : (copyN n x).length = n := by
  simp [copyN]
  omega

theorem copyN_of_length (x : List Nat) (h : x.length = 32) : copyN 32 x = x := by
  simp [copyN, h, List.take_of_length_le]

theorem setChainA_spec (a : List Nat) (j : Nat) (ha : a.length = 32) :
    setChainA a j = a.take 20 ++ be32 j ++ a.drop 24 ∧
      (setChainA a j).length = 32 ∧
      (setChainA a j).take 24 = a.take 20 ++ be32 j ∧
      (setChainA a j).take 20 = a.take 20 := by
  refine ⟨rfl, ?_, ?_, ?_⟩
  · simp [setChainA, putU32, be32, ha]
  · simp [setChainA, putU32, List.take_append_eq_append_take, ha, be32]
  · simp [setChainA, putU32, List.take_append_eq_append_take, ha, List.take_take]

theorem setHashKm_spec (a : List Nat) (i km : Nat) (ha : a.length = 32) :
    setKeyAndMaskA (setHashA a i) km = a.take 24 ++ be32 i ++ be32 km := by
  have h1 : setHashA a i = a.take 24 ++ be32 i ++ a.drop 28 := rfl
  have h2 : (setHashA a i).length = 32 := by
    simp [h1, be32, ha]
  simp only [setKeyAndMaskA, putU32, h1]
  have h3 : ((a.take 24 ++ be32 i ++ a.drop 28).take 28) = a.take 24 ++ be32 i := by
    simp [List.take_append_eq_append_take, ha, be32, List.take_take,
      List.take_of_length_le]
  have h4 : ((a.take 24 ++ be32 i ++ a.drop 28).drop 32) = [] := by
    rw [List.drop_eq_nil_iff]
    rw [h1] at h2
    omega
  rw [h3, h4]
  simp

theorem chainStep_spec (H : List Nat → List Nat) (ps : List Nat)
    (out addr : List Nat) (i : Nat) (ha : addr.length = 32) :
    chainStep H ps (out, addr) i =
      (pureStep H ps (addr.take 24) out i, addr.take 24 ++ be32 i ++ be32 1) := by
  have h1' : setKeyAndMaskA (setHashA addr i) 0 = addr.take 24 ++ be32 i ++ be32 0 :=
    setHashKm_spec addr i 0 ha
  have hB : setKeyAndMaskA (addr.take 24 ++ be32 i ++ be32 0) 1 =
      addr.take 24 ++ be32 i ++ be32 1 := by
    simp only [setKeyAndMaskA, putU32]
    have h3 : ((addr.take 24 ++ be32 i ++ be32 0).take 28) = addr.take 24 ++ be32 i := by
      simp [List.take_append_eq_append_take, ha, be32, List.take_take,
        List.take_of_length_le]
    have h4 : ((addr.take 24 ++ be32 i ++ be32 0).drop (28 + 4)) = [] := by
      rw [List.drop_eq_nil_iff]
      simp [be32, ha]
    rw [h3, h4]
    simp
  simp only [chainStep, h1', hB, pureStep]

theorem chain_foldl_spec (H : List Nat → List Nat) (ps : List Nat)
    (L : List Nat) :
    ∀ out addr : List Nat, addr.length = 32 →
      (L.foldl (chainStep H ps) (out, addr)).1 =
          L.foldl (pureStep H ps (addr.take 24)) out ∧
        (L.foldl (chainStep H ps) (out, addr)).2.length = 32 ∧
        (L.foldl (chainStep H ps) (out, addr)).2.take 24 = addr.take 24 := by
  induction L with
  | nil => intro out addr ha; exact ⟨rfl, ha, rfl⟩
  | cons i L ih =>
    intro out addr ha
    have hstep := chainStep_spec H ps out addr i ha
    have hlen : (addr.take 24 ++ be32 i ++ be32 1).length = 32 := by
      simp [be32, ha]
    have htake : (addr.take 24 ++ be32 i ++ be32 1).take 24 = addr.take 24 := by
      simp [List.take_append_eq_append_take, ha, List.take_take,
        List.take_of_length_le]
    have ih' := ih (pureStep H ps (addr.take 24) out i)
      (addr.take 24 ++ be32 i ++ be32 1) hlen
    simp only [List.foldl_cons, hstep]
    rw [htake] at ih'
    exact ih'

theorem chainGo_spec (H : List Nat → List Nat) (ps : List Nat)
    (x : List Nat) (s t : Nat) (a : List Nat) (ha : a.length = 32) :
    (chainGo H ps x s t a).1 =
        chainPure H ps (a.take 24) x s ((s + t) % 256 - s) ∧
      (chainGo H ps x s t a).2.length = 32 ∧
      (chainGo H ps x s t a).2.take 24 = a.take 24 :=
  chain_foldl_spec H ps (List.range' s ((s + t) % 256 - s)) (copyN 32 x) a ha

theorem chainPure_length (H : List Nat → List Nat) (ps pre24 x : List Nat)
    (s c : Nat) (hH : ∀ y, (H y).length = 32) :
    (chainPure H ps pre24 x s c).length = 32 := by
  unfold chainPure
  generalize List.range' s c = L
  induction L generalizing x s with
  | nil => exact copyN_length 32 x
  | cons i L ih =>
    simp only [List.foldl_cons]
    have h : pureStep H ps pre24 (copyN 32 x) i =
        copyN 32 (pureStep H ps pre24 (copyN 32 x) i) :=
      (copyN_of_length _ (hH _)).symm
    rw [h]
    exact ih _ s

/-! ### Clean characterisation of `computeChains` -/

/-- The result of one chain of `computeChains`, as a pure function of the
first 20 caller-address bytes `a20`, the chain index `j`, and the inputs. -/
def cleanBlock (H : List Nat → List Nat) (ps a20 : List Nat) (p : Params)
    (fromSig : Bool) (inp lengths : List Nat) (j : Nat) : List Nat :=
  let lj := lengths.getD j 0
  let start := if fromSig then lj else 0
  let steps := if fromSig then sub8 ((p.w - 1) % 256) lj else lj
  chainPure H ps (a20 ++ be32 j) ((inp.drop (j * 32)).take 32) start
    ((start + steps) % 256 - start)

/-- The full output of `computeChains` in clean form: the concatenation of
the `l` chain results in index order. -/
def cleanOut (H : List Nat → List Nat) (ps a20 : List Nat) (p : Params)
    (fromSig : Bool) (inp lengths : List Nat) : List Nat :=
  ((List.range p.l).map (cleanBlock H ps a20 p fromSig inp lengths)).flatten

theorem cleanBlock_length (H : List Nat → List Nat) (ps a20 : List Nat)
    (p : Params) (fromSig : Bool) (inp lengths : List Nat) (j : Nat)
    (hH : ∀ y, (H y).length = 32) :
    (cleanBlock H ps a20 p fromSig inp lengths j).length = 32 :=
  chainPure_length H ps _ _ _ _ hH

theorem flatten32_length (L : List (List Nat)) (h : ∀ b ∈ L, b.length = 32) :
    L.flatten.length = L.length * 32 := by
  induction L with
  | nil => rfl
  | cons b L ih =>
    simp only [List.flatten_cons, List.length_append, List.length_cons]
    rw [h b (List.mem_cons_self b L), ih (fun x hx => h x (List.mem_cons_of_mem b hx))]
    ring

theorem flatten32_take (L : List (List Nat)) (h : ∀ b ∈ L, b.length = 32) :
    ∀ k, L.flatten.take (k * 32) = (L.take k).flatten := by
  induction L with
  | nil => intro k; simp
  | cons b L ih =>
    intro k
    cases k with
    | zero => simp
    | succ k =>
      have hb32 : b.length = 32 := h b (List.mem_cons_self b L)
      simp only [List.flatten_cons, List.take_append_eq_append_take,
        List.take_succ_cons]
      have h1 : (k + 1) * 32 = 32 + k * 32 := by ring
      rw [h1]
      have h2 : b.take (32 + k * 32) = b := by
        apply List.take_of_length_le
        omega
      rw [h2, hb32]
      have h3 : 32 + k * 32 - 32 = k * 32 := by omega
      rw [h3, ih (fun x hx => h x (List.mem_cons_of_mem b hx)) k]

theorem flatten32_drop (L : List (List Nat)) (h : ∀ b ∈ L, b.length = 32) :
    ∀ k, L.flatten.drop (k * 32) = (L.drop k).flatten := by
  induction L with
  | nil => intro k; simp
  | cons b L ih =>
    intro k
    cases k with
    | zero => simp
    | succ k =>
      have hb32 : b.length = 32 := h b (List.mem_cons_self b L)
      simp only [List.flatten_cons, List.drop_append_eq_append_drop,
        List.drop_succ_cons]
      rw [hb32]
      have h1 : (k + 1) * 32 = 32 + k * 32 := by ring
      rw [h1]
      have h2 : b.drop (32 + k * 32) = [] := by
        rw [List.drop_eq_nil_iff]
        omega
      rw [h2]
      have h3 : 32 + k * 32 - 32 = k * 32 := by omega
      rw [h3, ih (fun x hx => h x (List.mem_cons_of_mem b hx)) k, List.nil_append]

theorem cleanOut_length (H : List Nat → List Nat) (ps a20 : List Nat)
    (p : Params) (fromSig : Bool) (inp lengths : List Nat)
    (hH : ∀ y, (H y).length = 32) :
    (cleanOut H ps a20 p fromSig inp lengths).length = p.l * 32 := by
  unfold cleanOut
  rw [flatten32_length, List.length_map, List.length_range]
  intro b hb
  obtain ⟨j, _, rfl⟩ := List.mem_map.mp hb
  exact cleanBlock_length H ps a20 p fromSig inp lengths j hH

theorem cleanOut_take_succ (H : List Nat → List Nat) (ps a20 : List Nat)
    (p : Params) (fromSig : Bool) (inp lengths : List Nat) (f : Nat)
    (hf : f < p.l) (hH : ∀ y, (H y).length = 32) :
    (cleanOut H ps a20 p fromSig inp lengths).take ((f + 1) * 32) =
      (cleanOut H ps a20 p fromSig inp lengths).take (f * 32) ++
        cleanBlock H ps a20 p fromSig inp lengths f := by
  have hall : ∀ b ∈ (List.range p.l).map (cleanBlock H ps a20 p fromSig inp lengths),
      b.length = 32 := by
    intro b hb
    obtain ⟨j, _, rfl⟩ := List.mem_map.mp hb
    exact cleanBlock_length H ps a20 p fromSig inp lengths j hH
  unfold cleanOut
  rw [flatten32_take _ hall, flatten32_take _ hall, List.take_succ]
  have hget : ((List.range p.l).map (cleanBlock H ps a20 p fromSig inp lengths))[f]? =
      some (cleanBlock H ps a20 p fromSig inp lengths f) := by
    rw [List.getElem?_map, List.getElem?_range hf]
    rfl
  rw [hget]
  simp

theorem processChain_spec (H : List Nat → List Nat) (ps : List Nat)
    (p : Params) (fromSig : Bool) (inp lengths buf addr : List Nat) (j : Nat)
    (ha : addr.length = 32) :
    (processChain H ps p fromSig inp lengths (buf, addr) j).1 =
        writeSlice buf (j * 32)
          (cleanBlock H ps (addr.take 20) p fromSig inp lengths j) ∧
      (processChain H ps p fromSig inp lengths (buf, addr) j).2.length = 32 ∧
      (processChain H ps p fromSig inp lengths (buf, addr) j).2.take 20 =
        addr.take 20 := by
  obtain ⟨-, ha1len, ha1t24, ha1t20⟩ := setChainA_spec addr j ha
  obtain ⟨hr1, hr2len, hr2t24⟩ := chainGo_spec H ps
    ((inp.drop (j * 32)).take 32)
    (if fromSig then lengths.getD j 0 else 0)
    (if fromSig then sub8 ((p.w - 1) % 256) (lengths.getD j 0)
      else lengths.getD j 0)
    (setChainA addr j) ha1len
  have ht20 : (chainGo H ps ((inp.drop (j * 32)).take 32)
      (if fromSig then lengths.getD j 0 else 0)
      (if fromSig then sub8 ((p.w - 1) % 256) (lengths.getD j 0)
        else lengths.getD j 0)
      (setChainA addr j)).2.take 20 = addr.take 20 := by
    have h1 := congrArg (List.take 20) hr2t24
    rw [List.take_take, List.take_take] at h1
    have h20 : min 20 24 = 20 := rfl
    rw [h20] at h1
    rw [h1, ha1t20]
  refine ⟨?_, hr2len, ht20⟩
  simp only [processChain, cleanBlock, hr1, ha1t24]

theorem worker_foldl (H : List Nat → List Nat) (ps : List Nat) (p : Params)
    (fromSig : Bool) (inp lengths : List Nat) (a20 : List Nat)
    (hH : ∀ y, (H y).length = 32) :
    ∀ (c f : Nat) (buf addr : List Nat), addr.length = 32 →
      addr.take 20 = a20 → f + c ≤ p.l →
      buf = (cleanOut H ps a20 p fromSig inp lengths).take (f * 32) ++
        List.replicate ((p.l - f) * 32) 0 →
      ((List.range' f c).foldl (processChain H ps p fromSig inp lengths)
          (buf, addr)).1 =
        (cleanOut H ps a20 p fromSig inp lengths).take ((f + c) * 32) ++
          List.replicate ((p.l - (f + c)) * 32) 0 := by
  intro c
  induction c with
  | zero => intro f buf addr _ _ _ hbuf; simpa using hbuf
  | succ c ih =>
    intro f buf addr ha ht20 hfc hbuf
    rw [List.range'_succ, List.foldl_cons]
    obtain ⟨h1, h2, h3⟩ :=
      processChain_spec H ps p fromSig inp lengths buf addr f ha
    have hblock : (cleanBlock H ps a20 p fromSig inp lengths f).length = 32 :=
      cleanBlock_length H ps a20 p fromSig inp lengths f hH
    have hclen : (cleanOut H ps a20 p fromSig inp lengths).length = p.l * 32 :=
      cleanOut_length H ps a20 p fromSig inp lengths hH
    have hfl : f < p.l := by omega
    have htlen : ((cleanOut H ps a20 p fromSig inp lengths).take (f * 32)).length =
        f * 32 := by
      rw [List.length_take]
      omega
    have hwrite : writeSlice buf (f * 32)
        (cleanBlock H ps a20 p fromSig inp lengths f) =
        (cleanOut H ps a20 p fromSig inp lengths).take ((f + 1) * 32) ++
          List.replicate ((p.l - (f + 1)) * 32) 0 := by
      unfold writeSlice
      rw [hbuf]
      rw [List.take_append_eq_append_take, List.drop_append_eq_append_drop]
      rw [htlen]
      have e1 : ((cleanOut H ps a20 p fromSig inp lengths).take (f * 32)).take
          (f * 32) = (cleanOut H ps a20 p fromSig inp lengths).take (f * 32) := by
        apply List.take_of_length_le
        omega
      rw [e1]
      have e2 : f * 32 - f * 32 = 0 := by omega
      rw [e2, hblock]
      have e3 : f * 32 + 32 - f * 32 = 32 := by omega
      rw [e3]
      have e4 : ((cleanOut H ps a20 p fromSig inp lengths).take (f * 32)).drop
          (f * 32 + 32) = [] := by
        rw [List.drop_eq_nil_iff]
        omega
      rw [e4, List.drop_replicate]
      have e5 : (p.l - f) * 32 - 32 = (p.l - (f + 1)) * 32 := by
        have e6 : p.l - f = (p.l - (f + 1)) + 1 := by omega
        rw [e6]
        ring_nf
        omega
      rw [e5]
      rw [cleanOut_take_succ H ps a20 p fromSig inp lengths f hfl hH]
      simp
    rw [ht20] at h1
    have hP1 : (processChain H ps p fromSig inp lengths (buf, addr) f).1 =
        (cleanOut H ps a20 p fromSig inp lengths).take ((f + 1) * 32) ++
          List.replicate ((p.l - (f + 1)) * 32) 0 := h1.trans hwrite
    have happ := ih (f + 1)
      (processChain H ps p fromSig inp lengths (buf, addr) f).1
      (processChain H ps p fromSig inp lengths (buf, addr) f).2
      h2 (h3.trans ht20) (by omega) hP1
    have h5 : f + (c + 1) = (f + 1) + c := by omega
    rw [h5]
    exact happ

theorem chainsPer_covers (p : Params) (nr : Nat) (hnr : 0 < nr) :
    p.l ≤ nr * chainsPer p nr := by
  unfold chainsPer
  have h1 := Nat.div_add_mod (p.l - 1) nr
  have h2 : (p.l - 1) % nr < nr := Nat.mod_lt _ hnr
  rw [Nat.mul_add, Nat.mul_one]
  omega

theorem workers_foldl (H : List Nat → List Nat) (ps : List Nat) (p : Params)
    (fromSig : Bool) (inp lengths a : List Nat) (cpr : Nat)
    (hH : ∀ y, (H y).length = 32) (ha : a.length = 32) :
    ∀ j : Nat,
      (List.range j).foldl
          (fun buf k =>
            ((workerChains p cpr k).foldl
              (processChain H ps p fromSig inp lengths) (buf, a)).1)
          (List.replicate (p.l * 32) 0) =
        (cleanOut H ps (a.take 20) p fromSig inp lengths).take
            (min p.l (j * cpr) * 32) ++
          List.replicate ((p.l - min p.l (j * cpr)) * 32) 0 := by
  intro j
  induction j with
  | zero => simp
  | succ j ih =>
    rw [List.range_succ, List.foldl_append, List.foldl_cons, List.foldl_nil, ih]
    by_cases hcase : j * cpr ≤ p.l
    · have hmin : min p.l (j * cpr) = j * cpr := by omega
      rw [hmin]
      have happ := worker_foldl H ps p fromSig inp lengths (a.take 20) hH
        (min p.l (j * cpr + cpr) - j * cpr) (j * cpr) _ a ha rfl (by omega) rfl
      unfold workerChains
      rw [happ]
      have he : j * cpr + (min p.l (j * cpr + cpr) - j * cpr) =
          min p.l ((j + 1) * cpr) := by
        rw [Nat.succ_mul]
        omega
      rw [he]
    · have hc0 : min p.l (j * cpr + cpr) - j * cpr = 0 := by omega
      unfold workerChains
      rw [hc0]
      have he : min p.l ((j + 1) * cpr) = min p.l (j * cpr) := by
        rw [Nat.succ_mul]
        omega
      rw [he]
      rfl

theorem computeChains_clean (H : List Nat → List Nat) (ps : List Nat)
    (nr : Nat) (inp lengths a : List Nat) (p : Params) (fromSig : Bool)
    (hH : ∀ y, (H y).length = 32) (ha : a.length = 32) (hnr : 0 < nr) :
    computeChains H ps nr inp lengths a p fromSig =
      cleanOut H ps (a.take 20) p fromSig inp lengths := by
  unfold computeChains computeChainsFull
  have hw := workers_foldl H ps p fromSig inp lengths a (chainsPer p nr) hH ha nr
  rw [hw]
  have hcov := chainsPer_covers p nr hnr
  have hmin : min p.l (nr * chainsPer p nr) = p.l := by omega
  rw [hmin]
  have h0 : p.l - p.l = 0 := by omega
  rw [h0]
  have hlen := cleanOut_length H ps (a.take 20) p fromSig inp lengths hH
  rw [List.take_of_length_le (by omega)]
  simp

/-! ### Lemmas about `baseW` -/

theorem baseWAux_length (lw wm : Nat) (x : List Nat) :
    ∀ (c t i b : Nat), (baseWAux lw wm x t i b c).length = c := by
  intro c
  induction c with
  | zero => intro t i b; cases b <;> rfl
  | succ c ih =>
    intro t i b
    cases b with
    | zero => simp [baseWAux, ih]
    | succ b => simp [baseWAux, ih]

theorem baseW_length (p : Params) (x : List Nat) (n : Nat) :
    (baseW p x n).length = n :=
  baseWAux_length _ _ x n 0 0 0

theorem baseWAux_le (lw wm : Nat) (x : List Nat) :
    ∀ (c t i b : Nat), ∀ d ∈ baseWAux lw wm x t i b c, d ≤ wm := by
  intro c
  induction c with
  | zero => intro t i b d hd; simp [baseWAux] at hd
  | succ c ih =>
    intro t i b d hd
    cases b with
    | zero =>
      rcases List.mem_cons.mp hd with h | h
      · rw [h]; exact Nat.and_le_right
      · exact ih _ _ _ d h
    | succ b =>
      rcases List.mem_cons.mp hd with h | h
      · rw [h]; exact Nat.and_le_right
      · exact ih _ _ _ d h

theorem baseW_le (p : Params) (x : List Nat) (n : Nat) :
    ∀ d ∈ baseW p x n, d ≤ (p.w - 1) % 256 :=
  baseWAux_le _ _ x n 0 0 0

theorem baseWAux_take (lw wm : Nat) (x : List Nat) :
    ∀ (c1 c2 t i b : Nat),
      baseWAux lw wm x t i b c1 = (baseWAux lw wm x t i b (c1 + c2)).take c1 := by
  intro c1
  induction c1 with
  | zero => intro c2 t i b; cases b <;> rfl
  | succ c1 ih =>
    intro c2 t i b
    have he : c1 + 1 + c2 = (c1 + c2) + 1 := by omega
    rw [he]
    cases b with
    | zero =>
      simp only [baseWAux, List.take_succ_cons]
      rw [ih c2]
    | succ b =>
      simp only [baseWAux, List.take_succ_cons]
      rw [ih c2]

theorem baseW_take (p : Params) (x : List Nat) (n m : Nat) (h : n ≤ m) :
    baseW p x n = (baseW p x m).take n := by
  obtain ⟨c2, rfl⟩ := Nat.le.dest h
  exact baseWAux_take _ _ x n c2 0 0 0

theorem baseWAux_shift (lw wm : Nat) (y : Nat) (x : List Nat) :
    ∀ (c t i b : Nat),
      baseWAux lw wm (y :: x) t (i + 1) b c = baseWAux lw wm x t i b c := by
  intro c
  induction c with
  | zero => intro t i b; cases b <;> rfl
  | succ c ih =>
    intro t i b
    cases b with
    | zero =>
      simp only [baseWAux, List.getD_cons_succ]
      rw [ih]
    | succ b =>
      simp only [baseWAux]
      rw [ih]

theorem baseWAux_total (lw wm : Nat) (x : List Nat) (c t t' i : Nat) :
    baseWAux lw wm x t i 0 c = baseWAux lw wm x t' i 0 c := by
  cases c with
  | zero => rfl
  | succ c => rfl

theorem bytesFromDigits_chunk (lw : Nat) (hlw : lw = 2 ∨ lw = 4 ∨ lw = 8)
    (d1 d2 : List Nat) (h1 : d1.length = 8 / lw) (h2 : 8 / lw ∣ d2.length) :
    bytesFromDigits lw (d1 ++ d2) =
      packByte (2 ^ lw) d1 :: bytesFromDigits lw d2 := by
  obtain ⟨m, hm⟩ := h2
  unfold bytesFromDigits
  have hcnt : (d1 ++ d2).length * lw / 8 = m + 1 := by
    rw [List.length_append, h1, hm]
    rcases hlw with h | h | h <;> subst h <;> omega
  have hcnt2 : d2.length * lw / 8 = m := by
    rw [hm]
    rcases hlw with h | h | h <;> subst h <;> omega
  rw [hcnt, hcnt2, List.range_succ_eq_map, List.map_cons, List.map_map]
  have hhead : ((d1 ++ d2).drop (0 * (8 / lw))).take (8 / lw) = d1 := by
    rw [Nat.zero_mul, List.drop_zero, List.take_append_eq_append_take, h1,
      Nat.sub_self, List.take_zero, List.append_nil]
    exact List.take_of_length_le (le_of_eq h1)
  rw [hhead]
  congr 1
  apply List.map_congr_left
  intro i hi
  simp only [Function.comp_apply]
  have hdrop : (d1 ++ d2).drop ((i + 1) * (8 / lw)) = d2.drop (i * (8 / lw)) := by
    have he : (i + 1) * (8 / lw) = d1.length + i * (8 / lw) := by
      rw [h1]
      ring
    rw [he, List.drop_append_eq_append_drop]
    have h3 : (d1.length + i * (8 / lw)) - d1.length = i * (8 / lw) := by omega
    rw [List.drop_eq_nil_iff.mpr (by omega), h3, List.nil_append]
  rw [hdrop]

theorem baseW16_cons (b : Nat) (x : List Nat) (n : Nat) :
    baseWAux 4 15 (b :: x) 0 0 0 (n + 2) =
      ((b >>> 4) &&& 15) :: (b &&& 15) :: baseWAux 4 15 x 0 0 0 n := by
  have s1 : baseWAux 4 15 (b :: x) 0 0 0 (n + 2) =
      ((b >>> 4) &&& 15) :: baseWAux 4 15 (b :: x) b 1 4 (n + 1) := rfl
  have s2 : baseWAux 4 15 (b :: x) b 1 4 (n + 1) =
      (b &&& 15) :: baseWAux 4 15 (b :: x) b 1 0 n := rfl
  rw [s1, s2, baseWAux_shift, baseWAux_total 4 15 x n b 0 0]

theorem baseW4_cons (b : Nat) (x : List Nat) (n : Nat) :
    baseWAux 2 3 (b :: x) 0 0 0 (n + 4) =
      ((b >>> 6) &&& 3) :: ((b >>> 4) &&& 3) :: ((b >>> 2) &&& 3) ::
        (b &&& 3) :: baseWAux 2 3 x 0 0 0 n := by
  have s1 : baseWAux 2 3 (b :: x) 0 0 0 (n + 4) =
      ((b >>> 6) &&& 3) :: baseWAux 2 3 (b :: x) b 1 6 (n + 3) := rfl
  have s2 : baseWAux 2 3 (b :: x) b 1 6 (n + 3) =
      ((b >>> 4) &&& 3) :: baseWAux 2 3 (b :: x) b 1 4 (n + 2) := rfl
  have s3 : baseWAux 2 3 (b :: x) b 1 4 (n + 2) =
      ((b >>> 2) &&& 3) :: baseWAux 2 3 (b :: x) b 1 2 (n + 1) := rfl
  have s4 : baseWAux 2 3 (b :: x) b 1 2 (n + 1) =
      (b &&& 3) :: baseWAux 2 3 (b :: x) b 1 0 n := rfl
  rw [s1, s2, s3, s4, baseWAux_shift, baseWAux_total 2 3 x n b 0 0]

theorem baseW256_cons (b : Nat) (x : List Nat) (n : Nat) :
    baseWAux 8 255 (b :: x) 0 0 0 (n + 1) =
      (b &&& 255) :: baseWAux 8 255 x 0 0 0 n := by
  have s1 : baseWAux 8 255 (b :: x) 0 0 0 (n + 1) =
      (b &&& 255) :: baseWAux 8 255 (b :: x) b 1 0 n := rfl
  rw [s1, baseWAux_shift, baseWAux_total 8 255 x n b 0 0]

theorem roundtrip_W16 :
    ∀ x : List Nat, (∀ b ∈ x, b < 256) →
      bytesFromDigits 4 (baseW paramsW16 x (8 * x.length / 4)) = x := by
  intro x
  induction x with
  | nil => intro _; rfl
  | cons b x ih =>
    intro hb
    have hc : 8 * (b :: x).length / 4 = 8 * x.length / 4 + 2 := by
      rw [List.length_cons]
      omega
    rw [hc]
    show bytesFromDigits 4 (baseWAux 4 15 (b :: x) 0 0 0 (8 * x.length / 4 + 2)) =
      b :: x
    rw [baseW16_cons]
    have hsplit := bytesFromDigits_chunk 4 (Or.inr (Or.inl rfl))
      [(b >>> 4) &&& 15, b &&& 15] (baseWAux 4 15 x 0 0 0 (8 * x.length / 4))
      rfl (by rw [baseWAux_length]; omega)
    rw [show ((b >>> 4) &&& 15) :: (b &&& 15) ::
        baseWAux 4 15 x 0 0 0 (8 * x.length / 4) =
      [(b >>> 4) &&& 15, b &&& 15] ++
        baseWAux 4 15 x 0 0 0 (8 * x.length / 4) from rfl]
    rw [hsplit]
    have hpack : ∀ y < 256, packByte (2 ^ 4) [(y >>> 4) &&& 15, y &&& 15] = y := by
      decide
    rw [hpack b (hb b (List.mem_cons_self b x))]
    have hx := ih (fun y hy => hb y (List.mem_cons_of_mem b hy))
    rw [show baseWAux 4 15 x 0 0 0 (8 * x.length / 4) =
      baseW paramsW16 x (8 * x.length / 4) from rfl]
    rw [hx]

theorem roundtrip_W4 :
    ∀ x : List Nat, (∀ b ∈ x, b < 256) →
      bytesFromDigits 2 (baseW paramsW4 x (8 * x.length / 2)) = x := by
  intro x
  induction x with
  | nil => intro _; rfl
  | cons b x ih =>
    intro hb
    have hc : 8 * (b :: x).length / 2 = 8 * x.length / 2 + 4 := by
      rw [List.length_cons]
      omega
    rw [hc]
    show bytesFromDigits 2 (baseWAux 2 3 (b :: x) 0 0 0 (8 * x.length / 2 + 4)) =
      b :: x
    rw [baseW4_cons]
    have hsplit := bytesFromDigits_chunk 2 (Or.inl rfl)
      [(b >>> 6) &&& 3, (b >>> 4) &&& 3, (b >>> 2) &&& 3, b &&& 3]
      (baseWAux 2 3 x 0 0 0 (8 * x.length / 2))
      rfl (by rw [baseWAux_length]; omega)
    rw [show ((b >>> 6) &&& 3) :: ((b >>> 4) &&& 3) :: ((b >>> 2) &&& 3) ::
        (b &&& 3) :: baseWAux 2 3 x 0 0 0 (8 * x.length / 2) =
      [(b >>> 6) &&& 3, (b >>> 4) &&& 3, (b >>> 2) &&& 3, b &&& 3] ++
        baseWAux 2 3 x 0 0 0 (8 * x.length / 2) from rfl]
    rw [hsplit]
    have hpack : ∀ y < 256,
        packByte (2 ^ 2) [(y >>> 6) &&& 3, (y >>> 4) &&& 3, (y >>> 2) &&& 3,
          y &&& 3] = y := by
      decide
    rw [hpack b (hb b (List.mem_cons_self b x))]
    have hx := ih (fun y hy => hb y (List.mem_cons_of_mem b hy))
    rw [show baseWAux 2 3 x 0 0 0 (8 * x.length / 2) =
      baseW paramsW4 x (8 * x.length / 2) from rfl]
    rw [hx]

theorem roundtrip_W256 :
    ∀ x : List Nat, (∀ b ∈ x, b < 256) →
      bytesFromDigits 8 (baseW paramsW256 x (8 * x.length / 8)) = x := by
  intro x
  induction x with
  | nil => intro _; rfl
  | cons b x ih =>
    intro hb
    have hc : 8 * (b :: x).length / 8 = 8 * x.length / 8 + 1 := by
      rw [List.length_cons]
      omega
    rw [hc]
    show bytesFromDigits 8 (baseWAux 8 255 (b :: x) 0 0 0 (8 * x.length / 8 + 1)) =
      b :: x
    rw [baseW256_cons]
    have hsplit := bytesFromDigits_chunk 8 (Or.inr (Or.inr rfl))
      [b &&& 255] (baseWAux 8 255 x 0 0 0 (8 * x.length / 8))
      rfl (by rw [baseWAux_length]; omega)
    rw [show (b &&& 255) :: baseWAux 8 255 x 0 0 0 (8 * x.length / 8) =
      [b &&& 255] ++ baseWAux 8 255 x 0 0 0 (8 * x.length / 8) from rfl]
    rw [hsplit]
    have hpack : ∀ y < 256, packByte (2 ^ 8) [y &&& 255] = y := by decide
    rw [hpack b (hb b (List.mem_cons_self b x))]
    have hx := ih (fun y hy => hb y (List.mem_cons_of_mem b hy))
    rw [show baseWAux 8 255 x 0 0 0 (8 * x.length / 8) =
      baseW paramsW256 x (8 * x.length / 8) from rfl]
    rw [hx]

/-! ### Lemmas about `checksum` -/

theorem foldl_add_mod (g : Nat → Nat) (m : Nat) :
    ∀ (L : List Nat) (c : Nat), (∀ i ∈ L, g i ≤ m) →
      c + m * L.length < 2 ^ 32 →
      L.foldl (fun acc i => (acc + g i) % 2 ^ 32) c =
          L.foldl (fun acc i => acc + g i) c ∧
        L.foldl (fun acc i => acc + g i) c ≤ c + m * L.length := by
  intro L
  induction L with
  | nil => intro c _ _; exact ⟨rfl, by simp⟩
  | cons i L ih =>
    intro c hle hbound
    have hgi : g i ≤ m := hle i (List.mem_cons_self i L)
    have hlen : (i :: L).length = L.length + 1 := rfl
    rw [hlen] at hbound
    have hsmall : c + g i < 2 ^ 32 := by nlinarith [Nat.zero_le (m * L.length)]
    have hmod : (c + g i) % 2 ^ 32 = c + g i := Nat.mod_eq_of_lt hsmall
    simp only [List.foldl_cons, hmod]
    have hb2 : (c + g i) + m * L.length < 2 ^ 32 := by nlinarith
    obtain ⟨h1, h2⟩ := ih (c + g i) (fun j hj => hle j (List.mem_cons_of_mem i hj)) hb2
    refine ⟨h1, ?_⟩
    calc L.foldl (fun acc j => acc + g j) (c + g i) ≤ (c + g i) + m * L.length := h2
      _ ≤ c + m * (L.length + 1) := by nlinarith

theorem foldl_add_congr (g1 g2 : Nat → Nat) :
    ∀ (L : List Nat) (c : Nat), (∀ i ∈ L, g1 i = g2 i) →
      L.foldl (fun acc i => acc + g1 i) c = L.foldl (fun acc i => acc + g2 i) c := by
  intro L
  induction L with
  | nil => intro c _; rfl
  | cons i L ih =>
    intro c h
    simp only [List.foldl_cons, h i (List.mem_cons_self i L)]
    exact ih _ (fun j hj => h j (List.mem_cons_of_mem i hj))

theorem sub8_eq_sub (a b : Nat) (ha : a ≤ 255) (hb : b ≤ a) : sub8 a b = a - b := by
  unfold sub8
  omega

/-- The exact (unreduced) checksum sum of the specification. -/
def specAcc (p : Params) (msg : List Nat) : Nat :=
  (List.range p.l1).foldl (fun c i => c + (p.w - 1 - msg.getD i 0)) 0

theorem checksumAcc_eq_specAcc (p : Params) (msg : List Nat)
    (hw : 2 ≤ p.w ∧ p.w ≤ 256) (hl1 : p.l1 ≤ 128)
    (hd : ∀ i < p.l1, msg.getD i 0 ≤ p.w - 1) :
    checksumAcc p msg = specAcc p msg ∧ specAcc p msg ≤ p.l1 * (p.w - 1) := by
  have hsub : ∀ i ∈ List.range p.l1,
      sub8 ((p.w - 1) % 256) (msg.getD i 0) = p.w - 1 - msg.getD i 0 := by
    intro i hi
    have hi' : i < p.l1 := List.mem_range.mp hi
    have hmod : (p.w - 1) % 256 = p.w - 1 := Nat.mod_eq_of_lt (by omega)
    rw [hmod]
    exact sub8_eq_sub _ _ (by omega) (hd i hi')
  have hle : ∀ i ∈ List.range p.l1,
      (fun i => sub8 ((p.w - 1) % 256) (msg.getD i 0)) i ≤ p.w - 1 := by
    intro i hi
    show sub8 ((p.w - 1) % 256) (msg.getD i 0) ≤ p.w - 1
    rw [hsub i hi]
    omega
  have hbound : 0 + (p.w - 1) * (List.range p.l1).length < 2 ^ 32 := by
    rw [List.length_range]
    have hmul : (p.w - 1) * p.l1 ≤ 255 * 128 :=
      Nat.mul_le_mul (by omega) hl1
    omega
  obtain ⟨h1, h2⟩ := foldl_add_mod
    (fun i => sub8 ((p.w - 1) % 256) (msg.getD i 0)) (p.w - 1)
    (List.range p.l1) 0 hle hbound
  have h3 : (List.range p.l1).foldl
      (fun acc i => acc + sub8 ((p.w - 1) % 256) (msg.getD i 0)) 0 =
      specAcc p msg := foldl_add_congr _ _ _ 0 hsub
  constructor
  · exact (h1.trans h3)
  · rw [← h3]
    rw [List.length_range] at h2
    have hcomm : (p.w - 1) * p.l1 = p.l1 * (p.w - 1) := Nat.mul_comm _ _
    omega

theorem getD_bound_of_mem (msg : List Nat) (w : Nat)
    (hmem : ∀ d ∈ msg, d < w) (hw : 1 ≤ w) :
    ∀ i < msg.length, msg.getD i 0 ≤ w - 1 := by
  intro i hi
  have h1 : msg.getD i 0 = msg[i] := List.getD_eq_getElem msg 0 hi
  rw [h1]
  have h2 := hmem msg[i] (List.getElem_mem hi)
  omega

theorem checksumShifted_eq (p : Params) (msg : List Nat)
    (hw : 2 ≤ p.w ∧ p.w ≤ 256) (hl1 : p.l1 ≤ 128)
    (hd : ∀ i < p.l1, msg.getD i 0 ≤ p.w - 1)
    (hsmall : p.l1 * (p.w - 1) * 2 ^ (8 - p.l2 * p.logW % 8) < 2 ^ 32) :
    checksumShifted p msg = specAcc p msg * 2 ^ (8 - p.l2 * p.logW % 8) ∧
      checksumShifted p msg ≤ p.l1 * (p.w - 1) * 2 ^ (8 - p.l2 * p.logW % 8) := by
  obtain ⟨h1, h2⟩ := checksumAcc_eq_specAcc p msg hw hl1 hd
  unfold checksumShifted
  rw [h1, Nat.shiftLeft_eq]
  have hle : specAcc p msg * 2 ^ (8 - p.l2 * p.logW % 8) ≤
      p.l1 * (p.w - 1) * 2 ^ (8 - p.l2 * p.logW % 8) :=
    Nat.mul_le_mul_right _ h2
  have hmod : specAcc p msg * 2 ^ (8 - p.l2 * p.logW % 8) % 2 ^ 32 =
      specAcc p msg * 2 ^ (8 - p.l2 * p.logW % 8) :=
    Nat.mod_eq_of_lt (by omega)
  rw [hmod]
  exact ⟨rfl, hle⟩

theorem checksum_eq_spec (p : Params) (msg : List Nat)
    (hw : 2 ≤ p.w ∧ p.w ≤ 256) (hl1 : p.l1 ≤ 128)
    (hd : ∀ i < p.l1, msg.getD i 0 ≤ p.w - 1)
    (hsmall : p.l1 * (p.w - 1) * 2 ^ (8 - p.l2 * p.logW % 8) < 2 ^ 16) :
    checksum p msg = checksumSpec p msg := by
  obtain ⟨h1, h2⟩ := checksumShifted_eq p msg hw hl1 hd (by
    have h216 : (2 : Nat) ^ 16 < 2 ^ 32 := by norm_num
    omega)
  have hspec : checksumSpec p msg =
      baseW p (be16 ((specAcc p msg <<< (8 - p.l2 * p.logW % 8)) >>>
        (8 * (byteLen2 (specAcc p msg <<< (8 - p.l2 * p.logW % 8)) - 2)))) p.l2 :=
    rfl
  have hsv : specAcc p msg <<< (8 - p.l2 * p.logW % 8) = checksumShifted p msg := by
    rw [Nat.shiftLeft_eq]
    exact h1.symm
  have hlt : checksumShifted p msg < 2 ^ 16 := by omega
  have hbl : byteLen2 (checksumShifted p msg) = 2 := by
    unfold byteLen2
    rw [if_pos hlt]
  rw [hspec, hsv, hbl]
  have h22 : 8 * (2 - 2) = 0 := rfl
  rw [h22, Nat.shiftRight_zero]
  unfold checksum
  rw [Nat.mod_eq_of_lt hlt]

/-! ### Constant-time comparison -/

theorem lor_eq_zero_iff (a b : Nat) : a ||| b = 0 ↔ a = 0 ∧ b = 0 := by
  constructor
  · intro h
    have ha := Nat.testBit_lor a b
    constructor
    · apply Nat.eq_of_testBit_eq
      intro k
      have h1 : (a ||| b).testBit k = false := by rw [h]; simp
      rw [ha] at h1
      simp at h1
      simp [h1.1]
    · apply Nat.eq_of_testBit_eq
      intro k
      have h1 : (a ||| b).testBit k = false := by rw [h]; simp
      rw [ha] at h1
      simp at h1
      simp [h1.2]
  · rintro ⟨rfl, rfl⟩
    rfl

theorem foldl_or_eq_zero :
    ∀ (L : List Nat) (acc : Nat),
      L.foldl (fun a b => a ||| b) acc = 0 ↔ acc = 0 ∧ ∀ b ∈ L, b = 0 := by
  intro L
  induction L with
  | nil => intro acc; simp
  | cons b L ih =>
    intro acc
    simp only [List.foldl_cons, ih, lor_eq_zero_iff, List.mem_cons]
    constructor
    · rintro ⟨⟨h1, h2⟩, h3⟩
      exact ⟨h1, fun c hc => hc.elim (fun he => he ▸ h2) (h3 c)⟩
    · rintro ⟨h1, h2⟩
      exact ⟨⟨h1, h2 b (Or.inl rfl)⟩, fun c hc => h2 c (Or.inr hc)⟩

theorem xorBytes_zero_iff :
    ∀ (x y : List Nat), x.length = y.length →
      ((∀ z ∈ xorBytes x y, z = 0) ↔ x = y) := by
  intro x
  induction x with
  | nil =>
    intro y hlen
    cases y with
    | nil => simp [xorBytes]
    | cons b y => simp at hlen
  | cons a x ih =>
    intro y hlen
    cases y with
    | nil => simp at hlen
    | cons b y =>
      simp only [xorBytes, List.zipWith_cons_cons, List.mem_cons, List.cons.injEq]
      have hlen' : x.length = y.length := by
        simp only [List.length_cons] at hlen
        omega
      constructor
      · intro h
        have h1 : a ^^^ b = 0 := h _ (Or.inl rfl)
        have h2 := (ih y hlen').mp (fun z hz => h z (Or.inr hz))
        exact ⟨Nat.xor_eq_zero.mp h1, h2⟩
      · rintro ⟨rfl, rfl⟩
        intro z hz
        rcases hz with h | h
        · rw [h, Nat.xor_self]
        · exact ((ih x rfl).mpr rfl) z h

theorem ctCompare_eq_one (x y : List Nat) : ctCompare x y = 1 ↔ x = y := by
  unfold ctCompare
  by_cases hlen : x.length = y.length
  · rw [if_pos hlen]
    by_cases hz : (xorBytes x y).foldl (fun acc b => acc ||| b) 0 = 0
    · rw [if_pos hz]
      have h1 := (foldl_or_eq_zero (xorBytes x y) 0).mp hz
      simp only [true_iff]
      exact (xorBytes_zero_iff x y hlen).mp h1.2
    · rw [if_neg hz]
      constructor
      · intro h; omega
      · intro h
        exfalso
        apply hz
        rw [foldl_or_eq_zero]
        exact ⟨rfl, (xorBytes_zero_iff x y hlen).mpr h⟩
  · rw [if_neg hlen]
    constructor
    · intro h; omega
    · intro h; exact absurd (congrArg List.length h) hlen

/-! ### Composition of chains -/

theorem chainPure_compose (H : List Nat → List Nat) (ps pre x : List Nat)
    (d e : Nat) (hH : ∀ y, (H y).length = 32) :
    chainPure H ps pre (chainPure H ps pre x 0 d) d e =
      chainPure H ps pre x 0 (d + e) := by
  have hcopy : copyN 32 (chainPure H ps pre x 0 d) = chainPure H ps pre x 0 d :=
    copyN_of_length _ (chainPure_length H ps pre x 0 d hH)
  show (List.range' d e).foldl (pureStep H ps pre)
      (copyN 32 (chainPure H ps pre x 0 d)) = _
  rw [hcopy]
  unfold chainPure
  rw [← List.foldl_append]
  congr 1
  have h := List.range'_append 0 d e 1
  simp only [Nat.one_mul, Nat.zero_add] at h
  rw [Nat.add_comm e d] at h
  exact h

theorem getD_map_range (g : Nat → List Nat) (n j : Nat) (hj : j < n) :
    ((List.range n).map g).getD j [] = g j := by
  have hlen : j < ((List.range n).map g).length := by
    rw [List.length_map, List.length_range]
    exact hj
  rw [List.getD_eq_getElem _ _ hlen]
  simp

theorem getD_le (L : List Nat) (m : Nat) (h : ∀ d ∈ L, d ≤ m) (j : Nat) :
    L.getD j 0 ≤ m := by
  by_cases hj : j < L.length
  · rw [List.getD_eq_getElem _ _ hj]
    exact h _ (List.getElem_mem hj)
  · rw [List.getD_eq_default _ _ (Nat.le_of_not_lt hj)]
    exact Nat.zero_le m

theorem flatten32_slice (L : List (List Nat)) (h32 : ∀ b ∈ L, b.length = 32)
    (j : Nat) (hj : j < L.length) :
    (L.flatten.drop (j * 32)).take 32 = L.getD j [] := by
  rw [flatten32_drop L h32 j]
  have hdrop : L.drop j = L[j] :: L.drop (j + 1) := List.drop_eq_getElem_cons hj
  rw [hdrop, List.flatten_cons, List.take_append_eq_append_take]
  have hlj : L[j].length = 32 := h32 _ (List.getElem_mem hj)
  rw [List.take_of_length_le (le_of_eq hlj), hlj, Nat.sub_self, List.take_zero,
    List.append_nil, List.getD_eq_getElem _ _ hj]

theorem checksum_length (p : Params) (msg : List Nat) :
    (checksum p msg).length = p.l2 := baseW_length _ _ _

theorem msgLengths_length (p : Params) (msg : List Nat) :
    (msgLengths p msg).length = p.l1 + p.l2 := by
  unfold msgLengths
  rw [List.length_append, baseW_length, checksum_length]

theorem msgLengths_le (p : Params) (msg : List Nat) :
    ∀ d ∈ msgLengths p msg, d ≤ (p.w - 1) % 256 := by
  intro d hd
  rcases List.mem_append.mp hd with h | h
  · exact baseW_le p msg p.l1 d h
  · exact baseW_le p _ p.l2 d h

theorem cleanOut_blocks (H : List Nat → List Nat) (ps a20 : List Nat)
    (p : Params) (fromSig : Bool) (inp lengths : List Nat)
    (hH : ∀ y, (H y).length = 32) :
    ∀ b ∈ (List.range p.l).map (cleanBlock H ps a20 p fromSig inp lengths),
      b.length = 32 := by
  intro b hb
  obtain ⟨j, _, rfl⟩ := List.mem_map.mp hb
  exact cleanBlock_length H ps a20 p fromSig inp lengths j hH

theorem cleanBlock_false (H : List Nat → List Nat) (ps a20 : List Nat)
    (p : Params) (inp lengths : List Nat) (j : Nat)
    (hlj : lengths.getD j 0 < 256) :
    cleanBlock H ps a20 p false inp lengths j =
      chainPure H ps (a20 ++ be32 j) ((inp.drop (j * 32)).take 32) 0
        (lengths.getD j 0) := by
  unfold cleanBlock
  simp only [Bool.false_eq_true, if_false, Nat.zero_add, Nat.sub_zero]
  rw [Nat.mod_eq_of_lt hlj]

theorem cleanBlock_true (H : List Nat → List Nat) (ps a20 : List Nat)
    (p : Params) (inp lengths : List Nat) (j : Nat)
    (hw : 2 ≤ p.w ∧ p.w ≤ 256) (hlj : lengths.getD j 0 ≤ p.w - 1) :
    cleanBlock H ps a20 p true inp lengths j =
      chainPure H ps (a20 ++ be32 j) ((inp.drop (j * 32)).take 32)
        (lengths.getD j 0) (p.w - 1 - lengths.getD j 0) := by
  unfold cleanBlock
  simp only [if_true]
  have hmod : (p.w - 1) % 256 = p.w - 1 := Nat.mod_eq_of_lt (by omega)
  rw [hmod, sub8_eq_sub _ _ (by omega) hlj]
  have hcnt : (lengths.getD j 0 + (p.w - 1 - lengths.getD j 0)) % 256 -
      lengths.getD j 0 = p.w - 1 - lengths.getD j 0 := by omega
  rw [hcnt]

theorem pkfs_sign_eq_gen_core (H : List Nat → List Nat)
    (ps seed msg a : List Nat) (p : Params) (n1 n2 n3 : Nat)
    (hH : ∀ y, (H y).length = 32) (ha : a.length = 32)
    (h1 : 0 < n1) (h2 : 0 < n2) (h3 : 0 < n3)
    (hw : 2 ≤ p.w ∧ p.w ≤ 256) :
    PublicKeyFromSigP H n2 (SignP H n1 msg seed ps p a) msg ps p a =
      GenPublicKeyP H n3 seed ps p a := by
  unfold PublicKeyFromSigP SignP GenPublicKeyP
  rw [computeChains_clean H ps n1 _ _ a p false hH ha h1,
    computeChains_clean H ps n2 _ _ a p true hH ha h2,
    computeChains_clean H ps n3 _ _ a p false hH ha h3]
  unfold cleanOut
  congr 1
  apply List.map_congr_left
  intro j hj
  have hjl : j < p.l := List.mem_range.mp hj
  have hwm : (p.w - 1) % 256 = p.w - 1 := Nat.mod_eq_of_lt (by omega)
  have hljle : (msgLengths p msg).getD j 0 ≤ p.w - 1 := by
    have h := getD_le (msgLengths p msg) ((p.w - 1) % 256)
      (msgLengths_le p msg) j
    rwa [hwm] at h
  have hsplice : ((cleanOut H ps (a.take 20) p false (expandSeed H seed p)
        (msgLengths p msg)).drop (j * 32)).take 32 =
      cleanBlock H ps (a.take 20) p false (expandSeed H seed p)
        (msgLengths p msg) j := by
    unfold cleanOut
    rw [flatten32_slice _
      (cleanOut_blocks H ps (a.take 20) p false _ _ hH) j
      (by rw [List.length_map, List.length_range]; exact hjl)]
    exact getD_map_range _ p.l j hjl
  have hrep : (List.replicate p.l ((p.w - 1) % 256)).getD j 0 = p.w - 1 := by
    rw [List.getD_eq_getElem _ _ (by rw [List.length_replicate]; exact hjl)]
    rw [List.getElem_replicate, hwm]
  rw [cleanBlock_true H ps (a.take 20) p _ (msgLengths p msg) j hw hljle]
  rw [show cleanOut H ps (a.take 20) p false (expandSeed H seed p)
      (msgLengths p msg) =
    ((List.range p.l).map (cleanBlock H ps (a.take 20) p false
      (expandSeed H seed p) (msgLengths p msg))).flatten from rfl] at hsplice
  rw [hsplice]
  rw [cleanBlock_false H ps (a.take 20) p (expandSeed H seed p)
    (msgLengths p msg) j (by omega)]
  rw [cleanBlock_false H ps (a.take 20) p (expandSeed H seed p)
    (List.replicate p.l ((p.w - 1) % 256)) j (by rw [hrep]; omega)]
  rw [hrep]
  rw [chainPure_compose H ps _ _ _ _ hH]
  have hfin : (msgLengths p msg).getD j 0 +
      (p.w - 1 - (msgLengths p msg).getD j 0) = p.w - 1 := by omega
  rw [hfin]

theorem routines_pos (cpu : Nat) (c : Int) (h : 0 < cpu) : 0 < routines cpu c := by
  unfold routines
  by_cases h0 : c = 0
  · rw [if_pos h0]
    omega
  · rw [if_neg h0]
    by_cases h1 : 0 < c
    · rw [if_pos h1]
      omega
    · rw [if_neg h1]
      exact h

theorem mode_resolve (o : Opts) (hm : o.mode = 0 ∨ o.mode = 1 ∨ o.mode = 2) :
    ∃ p, modeParams o.mode = some p ∧ 2 ≤ p.w ∧ p.w ≤ 256 := by
  rcases hm with h | h | h <;> rw [h]
  · exact ⟨paramsW16, rfl, by norm_num [paramsW16]⟩
  · exact ⟨paramsW4, rfl, by norm_num [paramsW4]⟩
  · exact ⟨paramsW256, rfl, by norm_num [paramsW256]⟩

/-- C2: for every 32-byte seed, public seed and message, every caller
address, every mode among `W4`, `W16`, `W256` and every supported (256-bit)
hash, recomputing the public key from a signature produced by `Sign` yields
exactly the public key produced by `GenPublicKey`, byte for byte. -/
theorem publicKeyFromSig_sign_eq_genPublicKey
    (H : List Nat → List Nat) (cpu : Nat) (seed pubSeed msg sig : List Nat)
    (o : Opts)
    (hH : ∀ y, (H y).length = 32) (hcpu : 0 < cpu)
    (ha : o.address.length = 32)
    (hseed : seed.length = 32) (hps : pubSeed.length = 32)
    (hmsg : msg.length = 32)
    (hm : o.mode = 0 ∨ o.mode = 1 ∨ o.mode = 2)
    (hsig : SignO H cpu msg seed pubSeed o = some sig) :
    PublicKeyFromSigO H cpu sig msg pubSeed o =
      GenPublicKeyO H cpu seed pubSeed o := by
  obtain ⟨p, hp, hw⟩ := mode_resolve o hm
  unfold SignO at hsig
  rw [hp, Option.map_some'] at hsig
  have hsig' : sig = SignP H (routines cpu o.concurrency) msg seed pubSeed p
      o.address := (Option.some.injEq _ _ ▸ hsig).symm
  unfold PublicKeyFromSigO GenPublicKeyO
  rw [hp, Option.map_some', Option.map_some']
  rw [hsig']
  have hpos := routines_pos cpu o.concurrency hcpu
  rw [pkfs_sign_eq_gen_core H pubSeed seed msg o.address p _ _ _ hH ha
    hpos hpos hpos hw]

/-- C1: signing a 32-byte message with a seed and then verifying the
signature against the public key generated from the same seed (same public
seed, address, mode and hash) succeeds. -/
theorem verify_genPublicKey_sign
    (H : List Nat → List Nat) (cpu : Nat) (seed pubSeed msg pk sig : List Nat)
    (o : Opts)
    (hH : ∀ y, (H y).length = 32) (hcpu : 0 < cpu)
    (ha : o.address.length = 32)
    (hseed : seed.length = 32) (hps : pubSeed.length = 32)
    (hmsg : msg.length = 32)
    (hm : o.mode = 0 ∨ o.mode = 1 ∨ o.mode = 2)
    (hpk : GenPublicKeyO H cpu seed pubSeed o = some pk)
    (hsig : SignO H cpu msg seed pubSeed o = some sig) :
    VerifyO H cpu pk sig msg pubSeed o = some true := by
  obtain ⟨p, hp, hw⟩ := mode_resolve o hm
  unfold SignO at hsig
  rw [hp, Option.map_some'] at hsig
  have hsig' : sig = SignP H (routines cpu o.concurrency) msg seed pubSeed p
      o.address := (Option.some.injEq _ _ ▸ hsig).symm
  unfold GenPublicKeyO at hpk
  rw [hp, Option.map_some'] at hpk
  have hpk' : pk = GenPublicKeyP H (routines cpu o.concurrency) seed pubSeed p
      o.address := (Option.some.injEq _ _ ▸ hpk).symm
  unfold VerifyO PublicKeyFromSigO
  rw [hp, Option.map_some', Option.map_some']
  rw [hsig']
  have hpos := routines_pos cpu o.concurrency hcpu
  rw [pkfs_sign_eq_gen_core H pubSeed seed msg o.address p _ _ _ hH ha
    hpos hpos hpos hw]
  rw [← hpk']
  rw [(ctCompare_eq_one pk pk).mpr rfl]
  rfl

/-- C5: two `Opts` values that differ only in the `Concurrency` field (for
any positive resolved worker counts) make `GenPublicKey`, `Sign` and
`PublicKeyFromSig` return identical byte strings, and the output of
`computeChains` is independent of the number of worker goroutines. -/
theorem concurrency_invariance
    (H : List Nat → List Nat) (cpu1 cpu2 : Nat)
    (seed pubSeed msg sig : List Nat) (o1 : Opts) (c2 : Int)
    (hH : ∀ y, (H y).length = 32) (h1 : 0 < cpu1) (h2 : 0 < cpu2)
    (ha : o1.address.length = 32) :
    GenPublicKeyO H cpu1 seed pubSeed o1 =
        GenPublicKeyO H cpu2 seed pubSeed { o1 with concurrency := c2 } ∧
      SignO H cpu1 msg seed pubSeed o1 =
        SignO H cpu2 msg seed pubSeed { o1 with concurrency := c2 } ∧
      PublicKeyFromSigO H cpu1 sig msg pubSeed o1 =
        PublicKeyFromSigO H cpu2 sig msg pubSeed { o1 with concurrency := c2 } ∧
      ∀ (nr1 nr2 : Nat) (inp lengths : List Nat) (p : Params) (fs : Bool),
        0 < nr1 → 0 < nr2 →
        computeChains H pubSeed nr1 inp lengths o1.address p fs =
          computeChains H pubSeed nr2 inp lengths o1.address p fs := by
  have hcc : ∀ (nr1 nr2 : Nat) (inp lengths : List Nat) (p : Params) (fs : Bool),
      0 < nr1 → 0 < nr2 →
      computeChains H pubSeed nr1 inp lengths o1.address p fs =
        computeChains H pubSeed nr2 inp lengths o1.address p fs := by
    intro nr1 nr2 inp lengths p fs hn1 hn2
    rw [computeChains_clean H pubSeed nr1 inp lengths o1.address p fs hH ha hn1,
      computeChains_clean H pubSeed nr2 inp lengths o1.address p fs hH ha hn2]
  have hp1 := routines_pos cpu1 o1.concurrency h1
  have hp2 := routines_pos cpu2 c2 h2
  refine ⟨?_, ?_, ?_, hcc⟩
  · unfold GenPublicKeyO
    cases hmp : modeParams o1.mode with
    | none => rfl
    | some p =>
      rw [Option.map_some', Option.map_some']
      unfold GenPublicKeyP
      rw [hcc _ _ _ _ p false hp1 hp2]
  · unfold SignO
    cases hmp : modeParams o1.mode with
    | none => rfl
    | some p =>
      rw [Option.map_some', Option.map_some']
      unfold SignP
      rw [hcc _ _ _ _ p false hp1 hp2]
  · unfold PublicKeyFromSigO
    cases hmp : modeParams o1.mode with
    | none => rfl
    | some p =>
      rw [Option.map_some', Option.map_some']
      unfold PublicKeyFromSigP
      rw [hcc _ _ _ _ p true hp1 hp2]

theorem ctCompare_cases (x y : List Nat) : ctCompare x y = 0 ∨ ctCompare x y = 1 := by
  unfold ctCompare
  by_cases h1 : x.length = y.length
  · rw [if_pos h1]
    by_cases h2 : (xorBytes x y).foldl (fun acc b => acc ||| b) 0 = 0
    · rw [if_pos h2]; right; rfl
    · rw [if_neg h2]; left; rfl
  · rw [if_neg h1]; left; rfl

theorem ctCompare_beq (pk pk2 : List Nat) :
    (ctCompare pk pk2 == 1) = decide (pk = pk2) := by
  by_cases h : pk = pk2
  · rw [(ctCompare_eq_one pk pk2).mpr h]
    simp [h]
  · have h0 : ctCompare pk pk2 = 0 := by
      rcases ctCompare_cases pk pk2 with h1 | h1
      · exact h1
      · exact absurd ((ctCompare_eq_one pk pk2).mp h1) h
    rw [h0]
    simp [h]

/-- C7: `Verify` returns `true` exactly when the supplied public key equals
the key recomputed by `PublicKeyFromSig`, byte for byte; the recomputed key
always has `l·N` bytes, so a public key of any other length makes `Verify`
return `false` — a boolean result, not an error. -/
theorem verify_iff_eq_recomputed
    (H : List Nat → List Nat) (cpu : Nat) (pk sig msg pubSeed : List Nat)
    (o : Opts) (p : Params) (pk2 : List Nat)
    (hH : ∀ y, (H y).length = 32) (hcpu : 0 < cpu)
    (ha : o.address.length = 32)
    (hp : modeParams o.mode = some p)
    (hpk2 : PublicKeyFromSigO H cpu sig msg pubSeed o = some pk2) :
    VerifyO H cpu pk sig msg pubSeed o = some (decide (pk = pk2)) ∧
      pk2.length = p.l * 32 ∧
      (pk.length ≠ p.l * 32 → VerifyO H cpu pk sig msg pubSeed o = some false) := by
  have hlen2 : pk2.length = p.l * 32 := by
    unfold PublicKeyFromSigO at hpk2
    rw [hp, Option.map_some'] at hpk2
    have h2 : pk2 = PublicKeyFromSigP H (routines cpu o.concurrency) sig msg
        pubSeed p o.address := (Option.some.injEq _ _ ▸ hpk2).symm
    rw [h2]
    unfold PublicKeyFromSigP
    rw [computeChains_clean H pubSeed _ _ _ _ p true hH ha
      (routines_pos cpu o.concurrency hcpu)]
    exact cleanOut_length H pubSeed _ p true _ _ hH
  have hver : VerifyO H cpu pk sig msg pubSeed o = some (decide (pk = pk2)) := by
    unfold VerifyO
    rw [hpk2, Option.map_some', ctCompare_beq]
  refine ⟨hver, hlen2, ?_⟩
  intro hne
  rw [hver]
  have hneq : pk ≠ pk2 := by
    intro he
    rw [he, hlen2] at hne
    exact hne rfl
  simp [hneq]

/-- C9: the caller's address inside `Opts` is left unchanged by the
primitives — `computeChains` only hands each worker a by-value copy — and the
primitives' outputs do not depend on the chain, hash and key-and-mask windows
(bytes 20..31) of the supplied address at all: only the caller-owned first 20
bytes matter. -/
theorem address_not_mutated
    (H : List Nat → List Nat) (ps seed msg sig : List Nat) (nr : Nat)
    (inp lengths : List Nat) (p : Params) (fromSig : Bool) (a a2 : List Nat)
    (hH : ∀ y, (H y).length = 32) (hnr : 0 < nr)
    (ha : a.length = 32) (ha2 : a2.length = 32)
    (h20 : a.take 20 = a2.take 20) :
    (computeChainsFull H ps nr inp lengths a p fromSig).2 = a ∧
      GenPublicKeyP H nr seed ps p a = GenPublicKeyP H nr seed ps p a2 ∧
      SignP H nr msg seed ps p a = SignP H nr msg seed ps p a2 ∧
      PublicKeyFromSigP H nr sig msg ps p a = PublicKeyFromSigP H nr sig msg ps p a2 := by
  refine ⟨rfl, ?_, ?_, ?_⟩
  · unfold GenPublicKeyP
    rw [computeChains_clean H ps nr _ _ a p false hH ha hnr,
      computeChains_clean H ps nr _ _ a2 p false hH ha2 hnr, h20]
  · unfold SignP
    rw [computeChains_clean H ps nr _ _ a p false hH ha hnr,
      computeChains_clean H ps nr _ _ a2 p false hH ha2 hnr, h20]
  · unfold PublicKeyFromSigP
    rw [computeChains_clean H ps nr _ _ a p true hH ha hnr,
      computeChains_clean H ps nr _ _ a2 p true hH ha2 hnr, h20]

/-- C3 (counterexample): for mode `W256` and the all-zero digit vector of
length `l1 = 32`, the checksum emitted by the code differs from the high two
bytes of the shifted checksum value described by the specification: the code
truncates the 22-bit shifted value `0x1FE000` to the `uint16` `0xE000`
(digits `[224, 0]`) instead of taking the high bytes `0x1FE0`
(digits `[31, 224]`). -/
theorem checksum_w256_truncates :
    checksum paramsW256 (List.replicate 32 0) ≠
      checksumSpec paramsW256 (List.replicate 32 0) := by
  decide

/-- C3 (amended): for modes `W4` and `W16` — where the shifted checksum value
always fits in two bytes — `checksum` computes `C = Σ_{i<l1} (w−1−msg[i])`,
shifts it so the low `8 − (l2·logW mod 8)` bits are zero, emits the high
`⌈l2·logW/8⌉ = 2` bytes of that value, and returns their base-`w`
decomposition of length `l2`.  For `W256` the code instead emits the low two
bytes of the (possibly three-byte) shifted value, see
`checksum_w256_truncates`. -/
theorem checksum_matches_spec (p : Params) (msg : List Nat)
    (hp : p = paramsW4 ∨ p = paramsW16)
    (hlen : msg.length = p.l1) (hd : ∀ d ∈ msg, d < p.w) :
    checksum p msg = checksumSpec p msg := by
  rcases hp with h | h <;> subst h
  · have hget : ∀ i < paramsW4.l1, msg.getD i 0 ≤ paramsW4.w - 1 := by
      intro i hi
      have hi' : i < msg.length := by rw [hlen]; exact hi
      have h2 := getD_bound_of_mem msg 4 hd (by norm_num) i hi'
      show msg.getD i 0 ≤ 3
      omega
    exact checksum_eq_spec paramsW4 msg (by norm_num [paramsW4])
      (by norm_num [paramsW4]) hget (by norm_num [paramsW4])
  · have hget : ∀ i < paramsW16.l1, msg.getD i 0 ≤ paramsW16.w - 1 := by
      intro i hi
      have hi' : i < msg.length := by rw [hlen]; exact hi
      have h2 := getD_bound_of_mem msg 16 hd (by norm_num) i hi'
      show msg.getD i 0 ≤ 15
      omega
    exact checksum_eq_spec paramsW16 msg (by norm_num [paramsW16])
      (by norm_num [paramsW16]) hget (by norm_num [paramsW16])

/-- C6: for every byte string `x`, every supported parameter set (so
`log₂w ∈ {2,4,8}`) and every `out_len` with `out_len·log₂w ≤ 8·len(x)`,
`baseW` returns `out_len` digits in `[0, w)` which form the MSB-first prefix
of the full decomposition; at full length the digits reassemble MSB-first to
exactly `x`. -/
theorem baseW_correct (p : Params) (x : List Nat) (outLen : Nat)
    (hp : p = paramsW4 ∨ p = paramsW16 ∨ p = paramsW256)
    (hb : ∀ b ∈ x, b < 256) (hlen : outLen * p.logW ≤ 8 * x.length) :
    (baseW p x outLen).length = outLen ∧
      (∀ d ∈ baseW p x outLen, d < p.w) ∧
      baseW p x outLen = (baseW p x (8 * x.length / p.logW)).take outLen ∧
      bytesFromDigits p.logW (baseW p x (8 * x.length / p.logW)) = x := by
  rcases hp with h | h | h <;> subst h
  · refine ⟨baseW_length _ _ _, ?_, ?_, roundtrip_W4 x hb⟩
    · intro d hd
      have := baseW_le paramsW4 x outLen d hd
      norm_num [paramsW4] at this ⊢
      omega
    · apply baseW_take
      have h2 : paramsW4.logW = 2 := rfl
      rw [h2] at hlen ⊢
      omega
  · refine ⟨baseW_length _ _ _, ?_, ?_, roundtrip_W16 x hb⟩
    · intro d hd
      have := baseW_le paramsW16 x outLen d hd
      norm_num [paramsW16] at this ⊢
      omega
    · apply baseW_take
      have h2 : paramsW16.logW = 4 := rfl
      rw [h2] at hlen ⊢
      omega
  · refine ⟨baseW_length _ _ _, ?_, ?_, roundtrip_W256 x hb⟩
    · intro d hd
      have := baseW_le paramsW256 x outLen d hd
      norm_num [paramsW256] at this ⊢
      omega
    · apply baseW_take
      have h2 : paramsW256.logW = 8 := rfl
      rw [h2] at hlen ⊢
      omega

/-- C10: for `W4` and `W16`, for every digit vector of length `l1` with
entries in `[0, w)`, the shifted checksum value is at most `24576`
respectively `15360`, hence strictly below `2^16`, so the conversion to
`uint16` inside `checksum` loses no information. -/
theorem checksum_shift_fits_uint16 (msg4 msg16 : List Nat)
    (h4l : msg4.length = 128) (h4 : ∀ d ∈ msg4, d < 4)
    (h16l : msg16.length = 64) (h16 : ∀ d ∈ msg16, d < 16) :
    (checksumShifted paramsW4 msg4 ≤ 24576 ∧
        checksumShifted paramsW4 msg4 < 2 ^ 16 ∧
        checksumShifted paramsW4 msg4 % 2 ^ 16 =
          checksumShifted paramsW4 msg4) ∧
      (checksumShifted paramsW16 msg16 ≤ 15360 ∧
        checksumShifted paramsW16 msg16 < 2 ^ 16 ∧
        checksumShifted paramsW16 msg16 % 2 ^ 16 =
          checksumShifted paramsW16 msg16) := by
  have hg4 : ∀ i < paramsW4.l1, msg4.getD i 0 ≤ paramsW4.w - 1 := by
    intro i hi
    have hi' : i < msg4.length := by rw [h4l]; exact hi
    have h2 := getD_bound_of_mem msg4 4 h4 (by norm_num) i hi'
    show msg4.getD i 0 ≤ 3
    omega
  have hg16 : ∀ i < paramsW16.l1, msg16.getD i 0 ≤ paramsW16.w - 1 := by
    intro i hi
    have hi' : i < msg16.length := by rw [h16l]; exact hi
    have h2 := getD_bound_of_mem msg16 16 h16 (by norm_num) i hi'
    show msg16.getD i 0 ≤ 15
    omega
  obtain ⟨-, hb4⟩ := checksumShifted_eq paramsW4 msg4 (by norm_num [paramsW4])
    (by norm_num [paramsW4]) hg4 (by norm_num [paramsW4])
  obtain ⟨-, hb16⟩ := checksumShifted_eq paramsW16 msg16
    (by norm_num [paramsW16]) (by norm_num [paramsW16]) hg16
    (by norm_num [paramsW16])
  have he4 : paramsW4.l1 * (paramsW4.w - 1) *
      2 ^ (8 - paramsW4.l2 * paramsW4.logW % 8) = 24576 := by
    norm_num [paramsW4]
  have he16 : paramsW16.l1 * (paramsW16.w - 1) *
      2 ^ (8 - paramsW16.l2 * paramsW16.logW % 8) = 15360 := by
    norm_num [paramsW16]
  rw [he4] at hb4
  rw [he16] at hb16
  refine ⟨⟨hb4, by omega, Nat.mod_eq_of_lt (by omega)⟩,
    ⟨hb16, by omega, Nat.mod_eq_of_lt (by omega)⟩⟩

/-- C4: each primitive of the error-returning API succeeds exactly on valid
inputs — it returns a typed error (never a result, and the functions are
total, so never a crash) precisely when the mode is invalid, the hash
algorithm is unsupported, or the message / seeds / public key / signature
have the wrong length. -/
theorem primitives_error_characterisation (H : List Nat → List Nat)
    (cpu : Nat) (seed pubSeed msg pk sig : List Nat) (o : Opts) :
    (exceptIsOk (GenPublicKeyE H cpu seed pubSeed o) = true ↔
        (modeParams o.mode).isSome = true ∧ (optsHash o.hashAlg).isSome = true ∧
          seed.length = 32 ∧ pubSeed.length = 32) ∧
      (exceptIsOk (SignE H cpu msg seed pubSeed o) = true ↔
        (modeParams o.mode).isSome = true ∧ (optsHash o.hashAlg).isSome = true ∧
          msg.length = 32 ∧ seed.length = 32 ∧ pubSeed.length = 32) ∧
      (exceptIsOk (PublicKeyFromSigE H cpu sig msg pubSeed o) = true ↔
        ∃ p, modeParams o.mode = some p ∧ (optsHash o.hashAlg).isSome = true ∧
          sig.length = p.l * 32 ∧ msg.length = 32 ∧ pubSeed.length = 32) ∧
      (exceptIsOk (VerifyE H cpu pk sig msg pubSeed o) = true ↔
        ∃ p, modeParams o.mode = some p ∧ (optsHash o.hashAlg).isSome = true ∧
          pk.length = p.l * 32 ∧ sig.length = p.l * 32 ∧ msg.length = 32 ∧
          pubSeed.length = 32) := by
  refine ⟨?_, ?_, ?_, ?_⟩
  · unfold GenPublicKeyE
    cases hm : modeParams o.mode with
    | none => simp [exceptIsOk, hm]
    | some p =>
      cases hh : optsHash o.hashAlg with
      | none => simp [exceptIsOk, hh]
      | some v =>
        by_cases hc : seed.length = 32 ∧ pubSeed.length = 32
        · simp only [if_pos hc]
          simp [exceptIsOk, hc.1, hc.2]
        · simp only [if_neg hc]
          simp only [exceptIsOk, Option.isSome_some, Bool.false_eq_true,
            false_iff, true_and]
          exact hc
  · unfold SignE
    cases hm : modeParams o.mode with
    | none => simp [exceptIsOk, hm]
    | some p =>
      cases hh : optsHash o.hashAlg with
      | none => simp [exceptIsOk, hh]
      | some v =>
        by_cases hc : msg.length = 32 ∧ seed.length = 32 ∧ pubSeed.length = 32
        · simp only [if_pos hc]
          simp [exceptIsOk, hc.1, hc.2.1, hc.2.2]
        · simp only [if_neg hc]
          simp only [exceptIsOk, Option.isSome_some, Bool.false_eq_true,
            false_iff, true_and]
          exact hc
  · unfold PublicKeyFromSigE
    cases hm : modeParams o.mode with
    | none => simp [exceptIsOk, hm]
    | some p =>
      cases hh : optsHash o.hashAlg with
      | none => simp [exceptIsOk, hh]
      | some v =>
        by_cases hc : sig.length = p.l * 32 ∧ msg.length = 32 ∧
            pubSeed.length = 32
        · simp only [if_pos hc]
          simp [exceptIsOk, hc.1, hc.2.1, hc.2.2]
        · simp only [if_neg hc]
          simp only [exceptIsOk, Option.isSome_some, Bool.false_eq_true,
            false_iff, true_and]
          rintro ⟨p2, hp2, hrest⟩
          rw [Option.some.injEq] at hp2
          subst hp2
          exact hc hrest
  · unfold VerifyE
    cases hm : modeParams o.mode with
    | none => simp [exceptIsOk, hm]
    | some p =>
      cases hh : optsHash o.hashAlg with
      | none => simp [exceptIsOk, hh]
      | some v =>
        by_cases hc : pk.length = p.l * 32 ∧ sig.length = p.l * 32 ∧
            msg.length = 32 ∧ pubSeed.length = 32
        · simp only [if_pos hc]
          simp [exceptIsOk, hc.1, hc.2.1, hc.2.2.1, hc.2.2.2]
        · simp only [if_neg hc]
          simp only [exceptIsOk, Option.isSome_some, Bool.false_eq_true,
            false_iff, true_and]
          rintro ⟨p2, hp2, hrest⟩
          rw [Option.some.injEq] at hp2
          subst hp2
          exact hc hrest

/-- C8: deserialising an address succeeds exactly on 32-byte inputs — every
other length yields the invalid-address error — and serialising the
deserialised address returns the original 32 bytes. -/
theorem addressFromBytes_roundtrip (data : List Nat) :
    (exceptIsOk (addressFromBytes data) = true ↔ data.length = 32) ∧
      (data.length = 32 →
        (addressFromBytes data).map addressToBytes = Except.ok data) := by
  constructor
  · unfold addressFromBytes
    by_cases h : data.length = 32
    · rw [if_pos h]
      simp [exceptIsOk, h]
    · rw [if_neg h]
      simp [exceptIsOk, h]
  · intro h
    unfold addressFromBytes
    rw [if_pos h]
    simp [Except.map, addressToBytes, copyN_of_length data h]

/-! ### Concrete instantiations used by the witnesses -/

/-- A concrete 256-bit hash for witnesses: constant all-zero digest. -/
def H0 : List Nat → List Nat := fun _ => List.replicate 32 0

/-- Concrete options for witnesses: mode `W4` (value 1), all-zero address,
default concurrency, default hash. -/
def oW4 : Opts := ⟨1, List.replicate 32 0, 0, 0⟩

/-- Concrete 32-byte buffer for witnesses. -/
def b32 : List Nat := List.replicate 32 0

theorem verify_genPublicKey_sign_witness :
    VerifyO H0 1
      (GenPublicKeyP H0 (routines 1 oW4.concurrency) b32 b32 paramsW4 oW4.address)
      (SignP H0 (routines 1 oW4.concurrency) b32 b32 b32 paramsW4 oW4.address)
      b32 b32 oW4 = some true :=
  verify_genPublicKey_sign H0 1 b32 b32 b32
    (GenPublicKeyP H0 (routines 1 oW4.concurrency) b32 b32 paramsW4 oW4.address)
    (SignP H0 (routines 1 oW4.concurrency) b32 b32 b32 paramsW4 oW4.address)
    oW4 (fun _ => rfl) (by decide) rfl rfl rfl rfl (Or.inr (Or.inl rfl)) rfl rfl

theorem publicKeyFromSig_sign_eq_genPublicKey_witness :
    PublicKeyFromSigO H0 1
      (SignP H0 (routines 1 oW4.concurrency) b32 b32 b32 paramsW4 oW4.address)
      b32 b32 oW4 = GenPublicKeyO H0 1 b32 b32 oW4 :=
  publicKeyFromSig_sign_eq_genPublicKey H0 1 b32 b32 b32
    (SignP H0 (routines 1 oW4.concurrency) b32 b32 b32 paramsW4 oW4.address)
    oW4 (fun _ => rfl) (by decide) rfl rfl rfl rfl (Or.inr (Or.inl rfl)) rfl

theorem checksum_matches_spec_witness :
    checksum paramsW4 (List.replicate 128 0) =
      checksumSpec paramsW4 (List.replicate 128 0) :=
  checksum_matches_spec paramsW4 (List.replicate 128 0) (Or.inl rfl) rfl
    (by decide)

theorem concurrency_invariance_witness :
    GenPublicKeyO H0 1 b32 b32 oW4 =
        GenPublicKeyO H0 2 b32 b32 { oW4 with concurrency := 3 } ∧
      SignO H0 1 b32 b32 b32 oW4 =
        SignO H0 2 b32 b32 b32 { oW4 with concurrency := 3 } ∧
      PublicKeyFromSigO H0 1 b32 b32 b32 oW4 =
        PublicKeyFromSigO H0 2 b32 b32 b32 { oW4 with concurrency := 3 } ∧
      ∀ (nr1 nr2 : Nat) (inp lengths : List Nat) (p : Params) (fs : Bool),
        0 < nr1 → 0 < nr2 →
        computeChains H0 b32 nr1 inp lengths oW4.address p fs =
          computeChains H0 b32 nr2 inp lengths oW4.address p fs :=
  concurrency_invariance H0 1 2 b32 b32 b32 b32 oW4 3 (fun _ => rfl)
    (by decide) (by decide) rfl

theorem baseW_correct_witness :
    (baseW paramsW16 [171, 205] 4).length = 4 ∧
      (∀ d ∈ baseW paramsW16 [171, 205] 4, d < paramsW16.w) ∧
      baseW paramsW16 [171, 205] 4 =
        (baseW paramsW16 [171, 205] (8 * [171, 205].length / paramsW16.logW)).take 4 ∧
      bytesFromDigits paramsW16.logW
        (baseW paramsW16 [171, 205] (8 * [171, 205].length / paramsW16.logW)) =
        [171, 205] :=
  baseW_correct paramsW16 [171, 205] 4 (Or.inr (Or.inl rfl)) (by decide)
    (by decide)

theorem verify_iff_eq_recomputed_witness :
    VerifyO H0 1 [] b32 b32 b32 oW4 =
        some (decide (([] : List Nat) =
          PublicKeyFromSigP H0 (routines 1 oW4.concurrency) b32 b32 b32
            paramsW4 oW4.address)) ∧
      (PublicKeyFromSigP H0 (routines 1 oW4.concurrency) b32 b32 b32 paramsW4
        oW4.address).length = paramsW4.l * 32 ∧
      (([] : List Nat).length ≠ paramsW4.l * 32 →
        VerifyO H0 1 [] b32 b32 b32 oW4 = some false) :=
  verify_iff_eq_recomputed H0 1 [] b32 b32 b32 oW4 paramsW4
    (PublicKeyFromSigP H0 (routines 1 oW4.concurrency) b32 b32 b32 paramsW4
      oW4.address)
    (fun _ => rfl) (by decide) rfl rfl rfl

theorem addressFromBytes_roundtrip_witness :
    (exceptIsOk (addressFromBytes (List.replicate 32 7)) = true ↔
        (List.replicate 32 7).length = 32) ∧
      (addressFromBytes (List.replicate 32 7)).map addressToBytes =
        Except.ok (List.replicate 32 7) :=
  ⟨(addressFromBytes_roundtrip (List.replicate 32 7)).1,
    (addressFromBytes_roundtrip (List.replicate 32 7)).2 (by decide)⟩

theorem address_not_mutated_witness :
    (computeChainsFull H0 b32 1 b32 [3] b32 paramsW4 false).2 = b32 ∧
      GenPublicKeyP H0 1 b32 b32 paramsW4 b32 =
        GenPublicKeyP H0 1 b32 b32 paramsW4 (List.replicate 20 0 ++ List.replicate 12 9) ∧
      SignP H0 1 b32 b32 b32 paramsW4 b32 =
        SignP H0 1 b32 b32 b32 paramsW4 (List.replicate 20 0 ++ List.replicate 12 9) ∧
      PublicKeyFromSigP H0 1 b32 b32 b32 paramsW4 b32 =
        PublicKeyFromSigP H0 1 b32 b32 b32 paramsW4
          (List.replicate 20 0 ++ List.replicate 12 9) :=
  address_not_mutated H0 b32 b32 b32 b32 1 b32 [3] paramsW4 false b32
    (List.replicate 20 0 ++ List.replicate 12 9) (fun _ => rfl) (by decide)
    (by decide) (by decide) (by decide)

theorem primitives_error_characterisation_witness :
    (exceptIsOk (GenPublicKeyE H0 1 b32 b32 oW4) = true ↔
        (modeParams oW4.mode).isSome = true ∧
          (optsHash oW4.hashAlg).isSome = true ∧
          b32.length = 32 ∧ b32.length = 32) ∧
      (exceptIsOk (SignE H0 1 b32 b32 b32 oW4) = true ↔
        (modeParams oW4.mode).isSome = true ∧
          (optsHash oW4.hashAlg).isSome = true ∧
          b32.length = 32 ∧ b32.length = 32 ∧ b32.length = 32) ∧
      (exceptIsOk (PublicKeyFromSigE H0 1 b32 b32 b32 oW4) = true ↔
        ∃ p, modeParams oW4.mode = some p ∧
          (optsHash oW4.hashAlg).isSome = true ∧
          b32.length = p.l * 32 ∧ b32.length = 32 ∧ b32.length = 32) ∧
      (exceptIsOk (VerifyE H0 1 b32 b32 b32 b32 oW4) = true ↔
        ∃ p, modeParams oW4.mode = some p ∧
          (optsHash oW4.hashAlg).isSome = true ∧
          b32.length = p.l * 32 ∧ b32.length = p.l * 32 ∧
          b32.length = 32 ∧ b32.length = 32) :=
  primitives_error_characterisation H0 1 b32 b32 b32 b32 b32 oW4

theorem checksum_shift_fits_uint16_witness :
    (checksumShifted paramsW4 (List.replicate 128 0) ≤ 24576 ∧
        checksumShifted paramsW4 (List.replicate 128 0) < 2 ^ 16 ∧
        checksumShifted paramsW4 (List.replicate 128 0) % 2 ^ 16 =
          checksumShifted paramsW4 (List.replicate 128 0)) ∧
      (checksumShifted paramsW16 (List.replicate 64 0) ≤ 15360 ∧
        checksumShifted paramsW16 (List.replicate 64 0) < 2 ^ 16 ∧
        checksumShifted paramsW16 (List.replicate 64 0) % 2 ^ 16 =
          checksumShifted paramsW16 (List.replicate 64 0)) :=
  checksum_shift_fits_uint16 (List.replicate 128 0) (List.replicate 64 0)
    rfl (by decide) rfl (by decide)

end Wotsp
